import Mathlib

/-!
# The completion loop of `io_uring_complete.c`

A shallow embedding of `startEventLoop` (src/code/io_uring_complete.c, lines 90-189).

The function talks to three collaborators whose code is outside the file: the ring
(liburing), the allocator and the C library.  The embedding makes every call to them an
entry of a trace (`Action`), in program order, one entry per statement, and takes
everything they return as an input (`Env`): the wait result, the completion, the count
returned by `io_uring_submit`.  `io_uring_get_sqe` and `malloc` are taken to succeed.

Memory is explicit: the `EventData` objects and the buffers the function owns are kept in
two finite maps keyed by address, `malloc` hands out addresses never used before, and a
dereference of an address that holds no object is the outcome `undefined`.  Accesses are
traced with the block they go to; the store `buffer[recvLen] = 0` is traced with its index
and changes no other block, so that whether it stays inside the buffer is a property of
the trace (`storesInBounds`), apart from the lifetime of the blocks (`memSafe`).

Two locals of the `switch` block, `sQueue` (line 125) and `bufferSize` (line 131), are
declared and initialised inside `case EventTypeAccept`.  A jump to `case EventTypeRead`
skips both initialisers, so the values the Read case reads from them are indeterminate;
they are inputs of the loop body too (`Uninit`).  The function stores to `bufferSize` in
one place, the initialiser of line 131, and the value is 1024; `keptEnvs` follows the
storage of that local from one iteration to the next, so that in a run the Read case
finds in it what the Accept case left.
-/

namespace IoUringComplete

/-! ## Data model (lines 12-23) -/

/-- The enum `EventType`. -/
inductive EventType where
  | Accept
  | Read
  | Write
  deriving DecidableEq, Repr

/-- The struct `EventData`. `buffer` is the address of the buffer block, `bufferSize` the
    `unsigned int` length field, `clientSocket` the `int` handle. -/
structure EventData where
  buffer : Nat
  bufferSize : Nat
  clientSocket : Int
  eventType : EventType
  deriving DecidableEq, Repr

/-- Operation kinds the function prepares. -/
inductive Opcode where
  | multishotAcceptDirect
  | read
  | write
  deriving DecidableEq, Repr

/-- The fields of a submission-queue entry the function sets, directly or through a
    `io_uring_prep_*` call. `userData = none` is the cleared association. -/
structure Sqe where
  opcode : Opcode
  fd : Int
  addr : Option Nat
  len : Nat
  off : Nat
  flags : Nat
  userData : Option Nat
  deriving DecidableEq, Repr

/-- The kernel ABI constant `IOSQE_FIXED_FILE` (bit 0 of the entry's flags). -/
def IOSQE_FIXED_FILE : Nat := 1

/-- What `io_uring_prep_multishot_accept_direct(sqe, fd, NULL, NULL, 0)` leaves in the entry:
    every field is rewritten, flags and user data are cleared. -/
def io_uring_prep_multishot_accept_direct (fd : Int) : Sqe :=
  { opcode := .multishotAcceptDirect, fd := fd, addr := none, len := 0, off := 0,
    flags := 0, userData := none }

/-- What `io_uring_prep_read(sqe, fd, buf, nbytes, offset)` leaves in the entry. -/
def io_uring_prep_read (fd : Int) (buf nbytes offset : Nat) : Sqe :=
  { opcode := .read, fd := fd, addr := some buf, len := nbytes, off := offset,
    flags := 0, userData := none }

/-- What `io_uring_prep_write(sqe, fd, buf, nbytes, offset)` leaves in the entry. -/
def io_uring_prep_write (fd : Int) (buf nbytes offset : Nat) : Sqe :=
  { opcode := .write, fd := fd, addr := some buf, len := nbytes, off := offset,
    flags := 0, userData := none }

/-- The call `io_uring_sqe_set_data(sqe, data)`. -/
def io_uring_sqe_set_data (sqe : Sqe) (data : Nat) : Sqe :=
  { sqe with userData := some data }

/-- One call the function makes to a collaborator, or one access it makes to memory it
    shares with them. Addresses are those of the blocks touched. -/
inductive Action where
  /-- The call `perror(strerror(code))`. -/
  | perror (code : Int)
  /-- The call `exit(code)`. -/
  | exitCall (code : Nat)
  /-- The call `io_uring_get_sqe(ring)`. -/
  | getSqe
  /-- The call `io_uring_prep_multishot_accept_direct` on the listening handle. -/
  | prepAccept (fd : Int)
  /-- The call `io_uring_prep_read(sqe, fd, buf, len, 0)`. -/
  | prepRead (fd : Int) (buf len : Nat)
  /-- The call `io_uring_prep_write(sqe, fd, buf, len, 0)`. -/
  | prepWrite (fd : Int) (buf len : Nat)
  /-- The call `io_uring_sqe_set_data(sqe, ctx)`. -/
  | setData (ctx : Nat)
  /-- The assignment to `sqe->flags`. -/
  | setFlags (flags : Nat)
  /-- The call `io_uring_submit(ring)`, with the entry it flushes and the count it returns. -/
  | submit (sqe : Sqe) (ret : Int)
  /-- The call `malloc(sizeof(EventData))` returning `ctx`. -/
  | mallocEventData (ctx : Nat)
  /-- The call `malloc(size)` returning `buf`. -/
  | mallocBuffer (buf size : Nat)
  /-- A read of a field of the `EventData` at `ctx`. -/
  | load (ctx : Nat)
  /-- A write of a field of the `EventData` at `ctx`. -/
  | store (ctx : Nat)
  /-- The store `buf[idx] = 0`. -/
  | bufStore (buf idx : Nat)
  /-- The call `printf("Received '%s'\n", buf)`, which reads the buffer. -/
  | printf (buf : Nat)
  /-- The call `strncpy(buf, "ack\0", n)`, which writes `n` bytes from `buf[0]` on. -/
  | strncpy (buf n : Nat)
  /-- The call `free(addr)`. -/
  | free (addr : Nat)
  /-- The call `close(fd)`. -/
  | close (fd : Int)
  /-- The call `io_uring_cqe_seen(ring, cqe)`. -/
  | cqeSeen
  deriving DecidableEq, Repr

/-! ## Memory -/

/-- The object stored at address `a`, if any. -/
def lookup {β : Type} (a : Nat) : List (Nat × β) → Option β
  | [] => none
  | (k, v) :: t => if k = a then some v else lookup a t

/-- The map without the object at address `a`. -/
def remove {β : Type} (a : Nat) : List (Nat × β) → List (Nat × β)
  | [] => []
  | (k, v) :: t => if k = a then remove a t else (k, v) :: remove a t

/-- The bytes `strncpy(dst, src, n)` writes to `dst[0..n)`, for a source string `src`
    (given without its terminator): the first `n` characters of `src`, then zero padding. -/
def strncpyBytes (src : List Nat) (n : Nat) : List (Option Nat) :=
  (src.take n).map some ++ List.replicate (n - src.length) (some 0)

/-- The content of a block `malloc(n)` returns: `n` bytes, none of them written yet. -/
def unwritten (n : Nat) : List (Option Nat) :=
  List.replicate n none

/-- The characters of the literal `"ack\0"` up to its first terminator: a, c, k. -/
def ackLiteral : List Nat := [97, 99, 107]

/-- The state of the function between two iterations: the live `EventData` objects (the
    local `acceptEvent` at address `acceptEventAddr`, the others from `malloc`), the live
    buffers with their bytes (`none` is a byte never written), and the next address
    `malloc` returns. -/
structure State where
  ctxs : List (Nat × EventData)
  bufs : List (Nat × List (Option Nat))
  next : Nat
  deriving DecidableEq, Repr

/-- The address of the local `acceptEvent` (line 96). -/
def acceptEventAddr : Nat := 0

/-! ## Inputs of one iteration -/

/-- The record `io_uring_cqe`: the result and the user data (`io_uring_cqe_get_data`). -/
structure Cqe where
  res : Int
  userData : Nat
  deriving DecidableEq, Repr

/-- The values read from the locals `sQueue` (through `sQueue->flags`) and `bufferSize`
    of the `switch` block when `case EventTypeRead` is entered: both initialisers sit in
    `case EventTypeAccept` and are jumped over, so the values are indeterminate. -/
structure Uninit where
  sQueueFlags : Nat
  bufferSize : Nat
  deriving DecidableEq, Repr

/-- Everything one iteration of the loop receives from outside. -/
structure Env where
  waitErr : Int
  cqe : Cqe
  uninit : Uninit
  submitRet : Int
  deriving DecidableEq, Repr

/-- How an iteration (or the whole function, on a finite list of inputs) ends. -/
inductive Outcome where
  /-- The loop body reached its end; the loop goes on with this state. -/
  | running (st : State)
  /-- The process ended through `exit(code)`. -/
  | exited (code : Nat)
  /-- A pointer to no live object was dereferenced. -/
  | undefined
  deriving DecidableEq, Repr

/-- The trace of an iteration and its outcome. -/
structure Result where
  trace : List Action
  outcome : Outcome
  deriving DecidableEq, Repr

/-! ## The loop body (lines 105-187) -/

/-- Lines 121-146, `case EventTypeAccept`. `p` is `cEvent`. -/
def caseAccept (st : State) (e : Env) (p : Nat) : Result :=
  let clientSocket := e.cqe.res
  let eventData := st.next
  let bufferSize := 1024
  let buffer := st.next + 1
  let ev : EventData :=
    { eventType := .Read, buffer := buffer, bufferSize := bufferSize,
      clientSocket := clientSocket }
  let sQueue := io_uring_prep_read clientSocket ev.buffer bufferSize 0
  let sQueue := io_uring_sqe_set_data sQueue eventData
  let sQueue := { sQueue with flags := sQueue.flags ||| IOSQE_FIXED_FILE }
  { trace :=
      [ .load p,
        .getSqe,
        .mallocEventData eventData,
        .store eventData,
        .mallocBuffer buffer bufferSize,
        .store eventData,
        .store eventData,
        .store eventData,
        .load eventData,
        .prepRead clientSocket ev.buffer bufferSize,
        .setData eventData,
        .setFlags sQueue.flags,
        .submit sQueue e.submitRet,
        .cqeSeen ],
    outcome := .running
      { ctxs := (eventData, ev) :: st.ctxs,
        bufs := (buffer, unwritten bufferSize) :: st.bufs,
        next := st.next + 2 } }

/-- Lines 147-179, `case EventTypeRead`. `p` is `cEvent`, `cEvent` the object it points to.
    The terminator store is traced with its index; the byte is not kept, because the block
    is released before the function reads it again. `bufferSize` and `sQueue->flags` are
    the skipped locals of the Accept case. -/
def caseRead (st : State) (e : Env) (p : Nat) (cEvent : EventData) : Result :=
  let readSocket := cEvent.clientSocket
  let recvLen := e.cqe.res.toNat
  match lookup cEvent.buffer st.bufs with
  | none => { trace := [.load p, .load p, .load p], outcome := .undefined }
  | some _ =>
    let rEventData := st.next
    let wSize := 4
    let bufferSize := e.uninit.bufferSize
    let wbuf := st.next + 1
    let rev : EventData :=
      { eventType := .Write, buffer := wbuf, bufferSize := wSize, clientSocket := readSocket }
    let rsq := io_uring_prep_write readSocket rev.buffer wSize 0
    let rsq := io_uring_sqe_set_data rsq rEventData
    let rsq := { rsq with flags := e.uninit.sQueueFlags ||| IOSQE_FIXED_FILE }
    { trace :=
        [ .load p,
          .load p,
          .load p,
          .bufStore cEvent.buffer recvLen,
          .load p,
          .printf cEvent.buffer,
          .load p,
          .free cEvent.buffer,
          .free p,
          .getSqe,
          .mallocEventData rEventData,
          .store rEventData,
          .mallocBuffer wbuf bufferSize,
          .store rEventData,
          .store rEventData,
          .store rEventData,
          .load rEventData,
          .strncpy rev.buffer bufferSize,
          .load rEventData,
          .prepWrite readSocket rev.buffer wSize,
          .setData rEventData,
          .setFlags rsq.flags,
          .submit rsq e.submitRet,
          .cqeSeen ],
      outcome := .running
        { ctxs := (rEventData, rev) :: remove p st.ctxs,
          bufs := (wbuf, strncpyBytes ackLiteral bufferSize) :: remove cEvent.buffer st.bufs,
          next := st.next + 2 } }

/-- Lines 180-184, `case EventTypeWrite`. -/
def caseWrite (st : State) (p : Nat) (cEvent : EventData) : Result :=
  match lookup cEvent.buffer st.bufs with
  | none => { trace := [.load p, .load p, .close cEvent.clientSocket, .load p],
              outcome := .undefined }
  | some _ =>
    { trace :=
        [ .load p,
          .load p,
          .close cEvent.clientSocket,
          .load p,
          .free cEvent.buffer,
          .free p,
          .cqeSeen ],
      outcome := .running
        { ctxs := remove p st.ctxs,
          bufs := remove cEvent.buffer st.bufs,
          next := st.next } }

/-- One iteration of `while (true)`, lines 105-187. -/
def loopBody (st : State) (e : Env) : Result :=
  if e.waitErr ≠ 0 then
    { trace := [.perror (-e.waitErr), .exitCall 1], outcome := .exited 1 }
  else if e.cqe.res < 0 then
    { trace := [.perror (-e.cqe.res), .exitCall 1], outcome := .exited 1 }
  else
    let p := e.cqe.userData
    match lookup p st.ctxs with
    | none => { trace := [.load p], outcome := .undefined }
    | some cEvent =>
      match cEvent.eventType with
      | .Accept => caseAccept st e p
      | .Read => caseRead st e p cEvent
      | .Write => caseWrite st p cEvent

/-! ## The function (lines 90-189) -/

/-- Lines 91-102: the accept registration made before the loop. `garbage` is the
    indeterminate content of the local `acceptEvent` at its declaration, `submitRet` the
    count the first `io_uring_submit` returns. -/
def startup (serverSocket : Int) (garbage : EventData) (submitRet : Int) : Result :=
  let sQueue := io_uring_prep_multishot_accept_direct serverSocket
  let acceptEvent : EventData := { garbage with eventType := .Accept }
  let sQueue := io_uring_sqe_set_data sQueue acceptEventAddr
  { trace :=
      [ .getSqe,
        .prepAccept serverSocket,
        .store acceptEventAddr,
        .setData acceptEventAddr,
        .submit sQueue submitRet ] ++ (if submitRet ≠ 1 then [.exitCall 1] else []),
    outcome :=
      if submitRet ≠ 1 then .exited 1
      else .running { ctxs := [(acceptEventAddr, acceptEvent)], bufs := [], next := 1 } }

/-- The state in which the loop is entered: the local `acceptEvent` with its kind
    assigned is the only object, nothing has been allocated. -/
def entryState (garbage : EventData) : State :=
  { ctxs := [(acceptEventAddr, { garbage with eventType := .Accept })], bufs := [], next := 1 }

/-- The accept entry handed to the first `io_uring_submit`. -/
def acceptEntry (serverSocket : Int) : Sqe :=
  { opcode := .multishotAcceptDirect, fd := serverSocket, addr := none, len := 0, off := 0,
    flags := 0, userData := some acceptEventAddr }

/-- The loop on a finite list of inputs, one per iteration: it stops at the first
    iteration that does not reach the end of the body. -/
def runLoop : State → List Env → Result
  | st, [] => { trace := [], outcome := .running st }
  | st, e :: es =>
    match (loopBody st e).outcome with
    | .running st' =>
      { trace := (loopBody st e).trace ++ (runLoop st' es).trace,
        outcome := (runLoop st' es).outcome }
    | _ => loopBody st e

/-- The function `startEventLoop` on the inputs of its first iterations. -/
def startEventLoop (serverSocket : Int) (garbage : EventData) (submitRet : Int)
    (envs : List Env) : Result :=
  match (startup serverSocket garbage submitRet).outcome with
  | .running st =>
    { trace := (startup serverSocket garbage submitRet).trace ++ (runLoop st envs).trace,
      outcome := (runLoop st envs).outcome }
  | _ => startup serverSocket garbage submitRet

/-! ## Reading a trace -/

/-- The entries handed to `io_uring_submit`, in order. -/
def submits : List Action → List Sqe
  | [] => []
  | .submit sqe _ :: t => sqe :: submits t
  | _ :: t => submits t

/-- The handles passed to `close`, in order. -/
def closes : List Action → List Int
  | [] => []
  | .close fd :: t => fd :: closes t
  | _ :: t => closes t

/-- The addresses passed to `free`, in order. -/
def frees : List Action → List Nat
  | [] => []
  | .free a :: t => a :: frees t
  | _ :: t => frees t

/-- The addresses returned by `malloc`, in order. -/
def mallocs : List Action → List Nat
  | [] => []
  | .mallocEventData a :: t => a :: mallocs t
  | .mallocBuffer a _ :: t => a :: mallocs t
  | _ :: t => mallocs t

/-- The bytes a submitted entry makes the kernel take from memory in state `st`: the
    first `len` bytes of the block at `addr`, as far as the block reaches. -/
def payload (st : State) (sqe : Sqe) : Option (List (Option Nat)) :=
  match sqe.addr with
  | none => none
  | some b => (lookup b st.bufs).map (List.take sqe.len)

/-- The acknowledgment: the characters a, c, k and the terminator. -/
def ackPayload : List (Option Nat) := [some 97, some 99, some 107, some 0]

/-- Whether every store `buf[idx] = 0` of the trace falls inside the block `buf` has in
    state `st`. -/
def storesInBounds (st : State) : List Action → Bool
  | [] => true
  | .bufStore b i :: t =>
    (match lookup b st.bufs with
     | some bytes => decide (i < bytes.length)
     | none => false) && storesInBounds st t
  | _ :: t => storesInBounds st t

/-- The number of `io_uring_prep_read` calls: one per Accept completion handled. -/
def readsPrepared : List Action → Nat
  | [] => 0
  | .prepRead _ _ _ :: t => readsPrepared t + 1
  | _ :: t => readsPrepared t

/-- The number of `io_uring_cqe_seen` calls. -/
def acknowledged : List Action → Nat
  | [] => 0
  | .cqeSeen :: t => acknowledged t + 1
  | _ :: t => acknowledged t

/-- The blocks an action reads, writes or releases through a pointer. -/
def Action.touched : Action → List Nat
  | .load a => [a]
  | .store a => [a]
  | .bufStore b _ => [b]
  | .printf b => [b]
  | .strncpy b _ => [b]
  | .free a => [a]
  | _ => []

/-- Whether a trace is free of accesses to released blocks: scanning it with the set of
    blocks released so far (`freed`), no action touches a block of the set, a second
    `free` of the same block included. -/
def memSafe : List Nat → List Action → Bool
  | _, [] => true
  | freed, .free a :: t => decide (a ∉ freed) && memSafe (a :: freed) t
  | freed, a :: t => a.touched.all (fun x => decide (x ∉ freed)) && memSafe freed t

/-- The handles the accept completions delivered, in order: the Accept case prepares its
    read on the handle of the completion it handles. -/
def acceptedHandles : List Action → List Int
  | [] => []
  | .prepRead fd _ _ :: t => fd :: acceptedHandles t
  | _ :: t => acceptedHandles t

/-- The handles of the writes prepared, in order. -/
def writtenHandles : List Action → List Int
  | [] => []
  | .prepWrite fd _ _ :: t => fd :: writtenHandles t
  | _ :: t => writtenHandles t

/-! ## The ring's side of a run -/

/-- Whether one of the entries in flight carries user data `p`. -/
def inFlight (infl : List Sqe) (p : Nat) : Bool :=
  infl.any (fun s => decide (s.userData = some p))

/-- The entries in flight once a completion with user data `p` is taken: the multishot
    accept stays registered, a one-shot entry is gone with its completion. -/
def consume (infl : List Sqe) (p : Nat) : List Sqe :=
  infl.filter (fun s => decide (s.opcode = .multishotAcceptDirect) || decide (s.userData ≠ some p))

/-- The ring's contract on a run of the loop from state `st` with the entries `infl` in
    flight: every wait succeeds with a completion whose result is not negative and whose
    user data is that of an entry handed to `io_uring_submit` and still in flight. -/
def ringDelivers : List Sqe → State → List Env → Bool
  | _, _, [] => true
  | infl, st, e :: es =>
    decide (e.waitErr = 0) && decide (0 ≤ e.cqe.res) && inFlight infl e.cqe.userData &&
    match (loopBody st e).outcome with
    | .running st' =>
      ringDelivers (consume infl e.cqe.userData ++ submits (loopBody st e).trace) st' es
    | _ => true

/-! ## Invariants of the loop -/

/-- What holds of the memory between two iterations. `acc` is the content of the local
    `acceptEvent`. -/
structure Inv (acc : EventData) (st : State) : Prop where
  next_pos : 0 < st.next
  ctx_lt : ∀ p c, lookup p st.ctxs = some c → p < st.next
  buf_lt : ∀ b x, lookup b st.bufs = some x → b < st.next
  ctx_nodup : (st.ctxs.map Prod.fst).Nodup
  buf_nodup : (st.bufs.map Prod.fst).Nodup
  accept_kind : acc.eventType = .Accept
  accept_at : lookup acceptEventAddr st.ctxs = some acc
  accept_only : ∀ p c, lookup p st.ctxs = some c → c.eventType = .Accept → p = acceptEventAddr
  owns : ∀ p c, lookup p st.ctxs = some c → c.eventType ≠ .Accept →
    ∃ x, lookup c.buffer st.bufs = some x
  excl : ∀ p q c d, lookup p st.ctxs = some c → lookup q st.ctxs = some d →
    c.eventType ≠ .Accept → d.eventType ≠ .Accept → c.buffer = d.buffer → p = q
  disjoint : ∀ p c, lookup p st.ctxs = some c → lookup p st.bufs = none
  len : st.ctxs.length = st.bufs.length + 1

/-- The released blocks `freed` are below the allocation mark and hold no object. -/
def FreedOk (freed : List Nat) (st : State) : Prop :=
  ∀ x ∈ freed, x < st.next ∧ lookup x st.ctxs = none ∧ lookup x st.bufs = none

/-- Every entry in flight carries a live `EventData`, the multishot accept the local
    `acceptEvent`. -/
def InflOk (infl : List Sqe) (st : State) : Prop :=
  ∀ s ∈ infl, (∃ p c, s.userData = some p ∧ lookup p st.ctxs = some c) ∧
    (s.opcode = .multishotAcceptDirect → s.userData = some acceptEventAddr)

/-- What holds of the local `acceptEvent` (content `acc`) between two iterations,
    whatever the completions were: it is in place, it is the only `EventData` of kind
    Accept, and its address is not that of a buffer. -/
structure AcceptKept (acc : EventData) (st : State) : Prop where
  next_pos : 0 < st.next
  accept_kind : acc.eventType = .Accept
  accept_at : lookup acceptEventAddr st.ctxs = some acc
  accept_only : ∀ p c, lookup p st.ctxs = some c → c.eventType = .Accept → p = acceptEventAddr
  no_buf : lookup acceptEventAddr st.bufs = none

/-- A trace that leaves the accept registration alone: it prepares no accept, submits
    only reads and writes, and neither releases nor writes the local `acceptEvent`. -/
def Quiet (t : List Action) : Prop :=
  (∀ fd, Action.prepAccept fd ∉ t) ∧
  (∀ sqe ∈ submits t, sqe.opcode = .read ∨ sqe.opcode = .write) ∧
  Action.free acceptEventAddr ∉ t ∧
  Action.store acceptEventAddr ∉ t

/-! ## The storage of `bufferSize` across iterations -/

/-- The inputs of an iteration in which the Read case finds `slot` in the local
    `bufferSize`. -/
def withBufferSize (slot : Nat) (e : Env) : Env :=
  { e with uninit := { e.uninit with bufferSize := slot } }

/-- What the storage of the local `bufferSize` holds after an iteration that found `slot`
    in it. The function stores to it in one place, the initialiser of line 131, which
    runs when the Accept case does, and the value stored is 1024. -/
def bufferSizeAfter (st : State) (slot : Nat) (e : Env) : Nat :=
  if e.waitErr ≠ 0 then slot
  else if e.cqe.res < 0 then slot
  else
    match lookup e.cqe.userData st.ctxs with
    | none => slot
    | some cEvent =>
      match cEvent.eventType with
      | .Accept => 1024
      | .Read => slot
      | .Write => slot

/-- The inputs of the iterations when the storage of `bufferSize` is kept from one
    iteration to the next: each iteration finds in it what the one before left, the
    first one `slot`. -/
def keptEnvs : State → Nat → List Env → List Env
  | _, _, [] => []
  | st, slot, e :: es =>
    withBufferSize slot e ::
      (match (loopBody st (withBufferSize slot e)).outcome with
       | .running st' => keptEnvs st' (bufferSizeAfter st slot e) es
       | _ => es)

/-- What the storage of `bufferSize` holds after the iterations on `envs`. -/
def slotAfter : State → Nat → List Env → Nat
  | _, slot, [] => slot
  | st, slot, e :: es =>
    match (loopBody st (withBufferSize slot e)).outcome with
    | .running st' => slotAfter st' (bufferSizeAfter st slot e) es
    | _ => slot

/-- While a Read or Write context is live, the storage of `bufferSize` holds 1024. -/
def SlotOk (st : State) (slot : Nat) : Prop :=
  ∀ p c, lookup p st.ctxs = some c → c.eventType ≠ .Accept → slot = 1024

/-! ## Connections -/

/-- One client connection as the run sees it: the handle its accept completion
    delivered, the `EventData` attached to its operation in flight (`none` when no
    operation is in flight for it any more), the write entries submitted while its
    completions were handled, each with the bytes its buffer held at that moment, and the
    handles closed while its completions were handled. -/
structure Conn where
  handle : Int
  ctx : Option Nat
  writes : List (Sqe × Option (List (Option Nat)))
  closed : List Int
  deriving DecidableEq, Repr

/-- The write entries of a trace, each with its payload in state `st`. -/
def writesOf (st : State) (t : List Action) : List (Sqe × Option (List (Option Nat))) :=
  ((submits t).filter (fun s => decide (s.opcode = .write))).map (fun s => (s, payload st s))

/-- The user data of the entry an iteration submitted, if it submitted one. -/
def submittedCtx (t : List Action) : Option Nat :=
  match submits t with
  | [] => none
  | s :: _ => s.userData

/-- The connections after the iteration on `e` that took `st` to `st'`. A completion
    that carries a context of kind Accept opens a connection, with the handle it
    delivers. Any other completion belongs to the connection whose operation in flight
    carries the same context: the writes and closes of the iteration are that
    connection's, and its operation in flight is the one the iteration submitted. -/
def assign (st st' : State) (conns : List Conn) (e : Env) : List Conn :=
  match lookup e.cqe.userData st.ctxs with
  | none => conns
  | some cEvent =>
    match cEvent.eventType with
    | .Accept =>
      conns ++ [{ handle := e.cqe.res, ctx := submittedCtx (loopBody st e).trace,
                  writes := writesOf st' (loopBody st e).trace,
                  closed := closes (loopBody st e).trace }]
    | _ =>
      conns.map (fun k =>
        if k.ctx = some e.cqe.userData then
          { handle := k.handle, ctx := submittedCtx (loopBody st e).trace,
            writes := k.writes ++ writesOf st' (loopBody st e).trace,
            closed := k.closed ++ closes (loopBody st e).trace }
        else k)

/-- The connections after the iterations on `envs`, the storage of `bufferSize` kept
    from one iteration to the next. -/
def track : State → Nat → List Conn → List Env → List Conn
  | _, _, conns, [] => conns
  | st, slot, conns, e :: es =>
    match (loopBody st (withBufferSize slot e)).outcome with
    | .running st' =>
      track st' (bufferSizeAfter st slot e) (assign st st' conns (withBufferSize slot e)) es
    | _ => conns

/-- The entry `w` is a write of 4 bytes on handle `h` from the block at `b`. -/
def GoodWrite (w : Sqe) (h : Int) (b : Nat) : Prop :=
  w.opcode = .write ∧ w.fd = h ∧ w.len = 4 ∧ w.addr = some b

/-- Where a connection stands in state `st`: its read is in flight, or its write is in
    flight, or its write completion was handled. -/
def ConnOk (st : State) (k : Conn) : Prop :=
  (∃ p c, k.ctx = some p ∧ lookup p st.ctxs = some c ∧ c.eventType = .Read ∧
      c.clientSocket = k.handle ∧ k.writes = [] ∧ k.closed = []) ∨
  (∃ p c w, k.ctx = some p ∧ lookup p st.ctxs = some c ∧ c.eventType = .Write ∧
      c.clientSocket = k.handle ∧ k.writes = [(w, some ackPayload)] ∧
      GoodWrite w k.handle c.buffer ∧ k.closed = []) ∨
  (∃ w b, k.ctx = none ∧ k.writes = [(w, some ackPayload)] ∧ GoodWrite w k.handle b ∧
      b < st.next ∧ k.closed = [k.handle])

/-- Two connections share neither the context of their operation in flight nor the
    buffer of a write. -/
def Apart (a b : Conn) : Prop :=
  (a.ctx = none ∨ a.ctx ≠ b.ctx) ∧ ∀ w ∈ a.writes, ∀ v ∈ b.writes, w.1.addr ≠ v.1.addr

/-- Every live Read or Write context is that of a connection's operation in flight. -/
def Owned (st : State) (conns : List Conn) : Prop :=
  ∀ p c, lookup p st.ctxs = some c → c.eventType ≠ .Accept → ∃ k ∈ conns, k.ctx = some p

/-- What holds of the connections between two iterations. -/
structure ConnsInv (st : State) (conns : List Conn) : Prop where
  ok : ∀ k ∈ conns, ConnOk st k
  apart : conns.Pairwise Apart
  owned : Owned st conns

/-! ## Concrete inputs -/

/-- Some content for the local `acceptEvent` before its `eventType` is assigned. -/
def someGarbage : EventData :=
  { buffer := 0, bufferSize := 0, clientSocket := 0, eventType := .Write }

/-- The state when the loop is entered. -/
def stListening : State :=
  { ctxs := [(0, { someGarbage with eventType := .Accept })], bufs := [], next := 1 }

/-- The state after the accept completion that delivers handle 7. -/
def stReading : State :=
  { ctxs := [(1, { buffer := 2, bufferSize := 1024, clientSocket := 7, eventType := .Read }),
             (0, { someGarbage with eventType := .Accept })],
    bufs := [(2, unwritten 1024)],
    next := 3 }

/-- Two connections whose completions interleave: both are accepted (handles 7 and 8),
    the second is read first, the first is written first. -/
def twoConnections : List Env :=
  [ { waitErr := 0, cqe := { res := 7, userData := 0 }, uninit := ⟨1, 1024⟩, submitRet := 1 },
    { waitErr := 0, cqe := { res := 8, userData := 0 }, uninit := ⟨1, 1024⟩, submitRet := 1 },
    { waitErr := 0, cqe := { res := 1, userData := 3 }, uninit := ⟨1, 1024⟩, submitRet := 1 },
    { waitErr := 0, cqe := { res := 5, userData := 1 }, uninit := ⟨1, 1024⟩, submitRet := 1 },
    { waitErr := 0, cqe := { res := 4, userData := 7 }, uninit := ⟨1, 1024⟩, submitRet := 1 },
    { waitErr := 0, cqe := { res := 4, userData := 5 }, uninit := ⟨1, 1024⟩, submitRet := 1 } ]

/-- A completion of the operation with user data `p`, result `res`; the skipped locals
    hold `flags` and `size`, and `io_uring_submit` returns `ret`. -/
def completion (res : Int) (p flags size : Nat) (ret : Int) : Env :=
  { waitErr := 0, cqe := { res := res, userData := p },
    uninit := { sQueueFlags := flags, bufferSize := size }, submitRet := ret }

/-- The state `stReading` after the kernel has put the five bytes of "hello" in the read
    buffer. -/
def stReadingHello : State :=
  { ctxs := stReading.ctxs,
    bufs := [(2, [some 104, some 101, some 108, some 108, some 111] ++ unwritten 1019)],
    next := 3 }

/-- The write entry the Read case submits for handle 7 with flags `flags`. -/
def ackWrite (flags : Nat) : Sqe :=
  { opcode := .write, fd := 7, addr := some 4, len := 4, off := 0, flags := flags,
    userData := some 3 }

/-! ## The three cases of the loop body -/

theorem loopBody_accept (st : State) (e : Env) (cEvent : EventData)
    (hw : e.waitErr = 0) (hres : 0 ≤ e.cqe.res)
    (hctx : lookup e.cqe.userData st.ctxs = some cEvent)
    (hk : cEvent.eventType = .Accept) :
    loopBody st e =
      { trace :=
          [ .load e.cqe.userData, .getSqe, .mallocEventData st.next, .store st.next,
            .mallocBuffer (st.next + 1) 1024, .store st.next, .store st.next, .store st.next,
            .load st.next, .prepRead e.cqe.res (st.next + 1) 1024, .setData st.next,
            .setFlags IOSQE_FIXED_FILE,
            .submit { opcode := .read, fd := e.cqe.res, addr := some (st.next + 1), len := 1024,
                      off := 0, flags := IOSQE_FIXED_FILE, userData := some st.next } e.submitRet,
            .cqeSeen ],
        outcome := .running
          { ctxs := (st.next, { eventType := .Read, buffer := st.next + 1, bufferSize := 1024,
                                clientSocket := e.cqe.res }) :: st.ctxs,
            bufs := (st.next + 1, unwritten 1024) :: st.bufs,
            next := st.next + 2 } } := by
  have h1 : ¬ e.cqe.res < 0 := not_lt.mpr hres
  simp [loopBody, hw, h1, hctx, hk, caseAccept, io_uring_prep_read, io_uring_sqe_set_data,
    IOSQE_FIXED_FILE]

theorem loopBody_read (st : State) (e : Env) (cEvent : EventData) (bytes : List (Option Nat))
    (hw : e.waitErr = 0) (hres : 0 ≤ e.cqe.res)
    (hctx : lookup e.cqe.userData st.ctxs = some cEvent)
    (hk : cEvent.eventType = .Read)
    (hbuf : lookup cEvent.buffer st.bufs = some bytes) :
    loopBody st e =
      { trace :=
          [ .load e.cqe.userData, .load e.cqe.userData, .load e.cqe.userData,
            .bufStore cEvent.buffer e.cqe.res.toNat,
            .load e.cqe.userData, .printf cEvent.buffer,
            .load e.cqe.userData, .free cEvent.buffer, .free e.cqe.userData,
            .getSqe, .mallocEventData st.next, .store st.next,
            .mallocBuffer (st.next + 1) e.uninit.bufferSize,
            .store st.next, .store st.next, .store st.next,
            .load st.next, .strncpy (st.next + 1) e.uninit.bufferSize,
            .load st.next, .prepWrite cEvent.clientSocket (st.next + 1) 4,
            .setData st.next,
            .setFlags (e.uninit.sQueueFlags ||| IOSQE_FIXED_FILE),
            .submit { opcode := .write, fd := cEvent.clientSocket, addr := some (st.next + 1),
                      len := 4, off := 0,
                      flags := e.uninit.sQueueFlags ||| IOSQE_FIXED_FILE,
                      userData := some st.next } e.submitRet,
            .cqeSeen ],
        outcome := .running
          { ctxs := (st.next, { eventType := .Write, buffer := st.next + 1, bufferSize := 4,
                                clientSocket := cEvent.clientSocket }) ::
                      remove e.cqe.userData st.ctxs,
            bufs := (st.next + 1, strncpyBytes ackLiteral e.uninit.bufferSize) ::
                      remove cEvent.buffer st.bufs,
            next := st.next + 2 } } := by
  have h1 : ¬ e.cqe.res < 0 := not_lt.mpr hres
  simp [loopBody, hw, h1, hctx, hk, hbuf, caseRead, io_uring_prep_write, io_uring_sqe_set_data]

theorem loopBody_write (st : State) (e : Env) (cEvent : EventData) (bytes : List (Option Nat))
    (hw : e.waitErr = 0) (hres : 0 ≤ e.cqe.res)
    (hctx : lookup e.cqe.userData st.ctxs = some cEvent)
    (hk : cEvent.eventType = .Write)
    (hbuf : lookup cEvent.buffer st.bufs = some bytes) :
    loopBody st e =
      { trace :=
          [ .load e.cqe.userData, .load e.cqe.userData, .close cEvent.clientSocket,
            .load e.cqe.userData, .free cEvent.buffer, .free e.cqe.userData, .cqeSeen ],
        outcome := .running
          { ctxs := remove e.cqe.userData st.ctxs,
            bufs := remove cEvent.buffer st.bufs,
            next := st.next } } := by
  have h1 : ¬ e.cqe.res < 0 := not_lt.mpr hres
  simp [loopBody, hw, h1, hctx, hk, hbuf, caseWrite]

theorem loopBody_negative (st : State) (e : Env) (hw : e.waitErr = 0) (hres : e.cqe.res < 0) :
    loopBody st e =
      { trace := [.perror (-e.cqe.res), .exitCall 1], outcome := .exited 1 } := by
  simp [loopBody, hw, hres]

/-- The concrete states are the ones the function reaches: `stListening` when the loop is
    entered, `stReading` after the accept completion delivering handle 7. -/
theorem concrete_states_reached :
    (startEventLoop 3 someGarbage 1 []).outcome = .running stListening ∧
    (startEventLoop 3 someGarbage 1 [completion 7 0 0 0 1]).outcome = .running stReading :=
  ⟨rfl, rfl⟩

/-! ## Completions with a negative result -/

/-- C3: a retrieved completion whose result is negative ends the process, whatever
    context it carries: the loop body logs the cause with `perror` and calls `exit(1)`
    before the context is read, so its trace holds nothing else (no submit, no close, no
    free, no acknowledgment), and the loop handles none of the later completions. -/
theorem negative_result_terminates (st : State) (e : Env) (es : List Env)
    (hw : e.waitErr = 0) (hres : e.cqe.res < 0) :
    loopBody st e =
      { trace := [.perror (-e.cqe.res), .exitCall 1], outcome := .exited 1 } ∧
    runLoop st (e :: es) =
      { trace := [.perror (-e.cqe.res), .exitCall 1], outcome := .exited 1 } := by
  have h := loopBody_negative st e hw hres
  refine ⟨h, ?_⟩
  simp [runLoop, h]

theorem negative_result_terminates_witness :
    (completion (-104) 1 1 1024 1).waitErr = 0 ∧
    (completion (-104) 1 1 1024 1).cqe.res < 0 ∧
    lookup 1 stReading.ctxs =
      some { buffer := 2, bufferSize := 1024, clientSocket := 7, eventType := .Read } ∧
    loopBody stReading (completion (-104) 1 1 1024 1) =
      { trace := [.perror 104, .exitCall 1], outcome := .exited 1 } ∧
    runLoop stReading [completion (-104) 1 1 1024 1, completion 9 0 1 1024 1] =
      { trace := [.perror 104, .exitCall 1], outcome := .exited 1 } :=
  ⟨rfl, by decide, rfl,
    negative_result_terminates stReading (completion (-104) 1 1 1024 1)
      [completion 9 0 1 1024 1] rfl (by decide)⟩

/-! ## Accept completions -/

/-- C6: an Accept-kind completion with non-negative result `h` makes the loop body
    allocate one `EventData` and one buffer of 1024 bytes, fill the `EventData` with kind
    Read, handle `h`, that buffer and length 1024, prepare one read of 1024 bytes on `h`
    into the buffer, attach the `EventData` after the prepare call, set
    `IOSQE_FIXED_FILE` on the entry and submit it; it calls neither `close` nor `free`. -/
theorem accept_completion_submits_read (st : State) (e : Env) (cEvent : EventData)
    (hw : e.waitErr = 0) (hres : 0 ≤ e.cqe.res)
    (hctx : lookup e.cqe.userData st.ctxs = some cEvent)
    (hk : cEvent.eventType = .Accept) :
    (loopBody st e).trace =
      [ .load e.cqe.userData, .getSqe, .mallocEventData st.next, .store st.next,
        .mallocBuffer (st.next + 1) 1024, .store st.next, .store st.next, .store st.next,
        .load st.next, .prepRead e.cqe.res (st.next + 1) 1024, .setData st.next,
        .setFlags IOSQE_FIXED_FILE,
        .submit { opcode := .read, fd := e.cqe.res, addr := some (st.next + 1), len := 1024,
                  off := 0, flags := IOSQE_FIXED_FILE, userData := some st.next } e.submitRet,
        .cqeSeen ] ∧
    (loopBody st e).outcome = .running
      { ctxs := (st.next, { eventType := .Read, buffer := st.next + 1, bufferSize := 1024,
                            clientSocket := e.cqe.res }) :: st.ctxs,
        bufs := (st.next + 1, unwritten 1024) :: st.bufs,
        next := st.next + 2 } ∧
    (unwritten 1024).length = 1024 ∧
    submits (loopBody st e).trace =
      [ { opcode := .read, fd := e.cqe.res, addr := some (st.next + 1), len := 1024,
          off := 0, flags := IOSQE_FIXED_FILE, userData := some st.next } ] ∧
    closes (loopBody st e).trace = [] ∧
    frees (loopBody st e).trace = [] := by
  rw [loopBody_accept st e cEvent hw hres hctx hk]
  refine ⟨rfl, rfl, ?_, rfl, rfl, rfl⟩
  exact List.length_replicate 1024 none

theorem accept_completion_submits_read_witness :
    (completion 7 0 0 0 1).waitErr = 0 ∧ 0 ≤ (completion 7 0 0 0 1).cqe.res ∧
    lookup (completion 7 0 0 0 1).cqe.userData stListening.ctxs =
      some { someGarbage with eventType := .Accept } ∧
    (loopBody stListening (completion 7 0 0 0 1)).outcome = .running stReading ∧
    submits (loopBody stListening (completion 7 0 0 0 1)).trace =
      [ { opcode := .read, fd := 7, addr := some 2, len := 1024, off := 0, flags := 1,
          userData := some 1 } ] ∧
    closes (loopBody stListening (completion 7 0 0 0 1)).trace = [] ∧
    frees (loopBody stListening (completion 7 0 0 0 1)).trace = [] :=
  have h := accept_completion_submits_read stListening (completion 7 0 0 0 1)
    { someGarbage with eventType := .Accept } rfl (by decide) rfl rfl
  ⟨rfl, by decide, rfl, h.2.1, h.2.2.2.1, h.2.2.2.2.1, h.2.2.2.2.2⟩


/-! ## Read completions -/

/-- C2 (claim refuted): on a Read completion with result 0 the loop body does not tear the
    connection down. With the read context of handle 7 outstanding, it prepares and
    submits the 4-byte write on handle 7 and makes no `close` call. -/
theorem zero_read_submits_write_without_close :
    Action.prepWrite 7 4 4 ∈ (loopBody stReading (completion 0 1 1 1024 1)).trace ∧
    submits (loopBody stReading (completion 0 1 1 1024 1)).trace = [ackWrite 1] ∧
    closes (loopBody stReading (completion 0 1 1 1024 1)).trace = [] := by
  have h := loopBody_read stReading (completion 0 1 1 1024 1) _ _ rfl (by decide) rfl rfl rfl
  rw [h]
  refine ⟨?_, rfl, rfl⟩
  simp [stReading]

/-- C2 (amended): a Read completion with result 0 is handled as any other non-negative
    byte count. The loop body stores the terminator at index 0, releases the buffer and
    the read context, submits one write of length 4 on the context's handle with a new
    Write-kind context that carries the same handle, and calls no `close`. -/
theorem zero_read_handled_as_data (st : State) (e : Env) (cEvent : EventData)
    (bytes : List (Option Nat))
    (hw : e.waitErr = 0) (hres : e.cqe.res = 0)
    (hctx : lookup e.cqe.userData st.ctxs = some cEvent)
    (hk : cEvent.eventType = .Read)
    (hbuf : lookup cEvent.buffer st.bufs = some bytes) :
    Action.bufStore cEvent.buffer 0 ∈ (loopBody st e).trace ∧
    frees (loopBody st e).trace = [cEvent.buffer, e.cqe.userData] ∧
    submits (loopBody st e).trace =
      [ { opcode := .write, fd := cEvent.clientSocket, addr := some (st.next + 1), len := 4,
          off := 0, flags := e.uninit.sQueueFlags ||| IOSQE_FIXED_FILE,
          userData := some st.next } ] ∧
    closes (loopBody st e).trace = [] ∧
    (loopBody st e).outcome = .running
      { ctxs := (st.next, { eventType := .Write, buffer := st.next + 1, bufferSize := 4,
                            clientSocket := cEvent.clientSocket }) ::
                  remove e.cqe.userData st.ctxs,
        bufs := (st.next + 1, strncpyBytes ackLiteral e.uninit.bufferSize) ::
                  remove cEvent.buffer st.bufs,
        next := st.next + 2 } := by
  rw [loopBody_read st e cEvent bytes hw (le_of_eq hres.symm) hctx hk hbuf]
  refine ⟨?_, rfl, rfl, rfl, rfl⟩
  simp [hres]

theorem zero_read_handled_as_data_witness :
    (completion 0 1 1 1024 1).waitErr = 0 ∧ (completion 0 1 1 1024 1).cqe.res = 0 ∧
    lookup 1 stReading.ctxs =
      some { buffer := 2, bufferSize := 1024, clientSocket := 7, eventType := .Read } ∧
    lookup 2 stReading.bufs = some (unwritten 1024) ∧
    Action.bufStore 2 0 ∈ (loopBody stReading (completion 0 1 1 1024 1)).trace ∧
    frees (loopBody stReading (completion 0 1 1 1024 1)).trace = [2, 1] ∧
    closes (loopBody stReading (completion 0 1 1 1024 1)).trace = [] :=
  have h := zero_read_handled_as_data stReading (completion 0 1 1 1024 1)
    { buffer := 2, bufferSize := 1024, clientSocket := 7, eventType := .Read }
    (unwritten 1024) rfl rfl rfl rfl rfl
  ⟨rfl, rfl, rfl, rfl, h.1, h.2.1, h.2.2.2.1⟩

/-- What a Read completion with a positive byte count does for every value of the skipped
    locals: one write of length 4 on the handle of the read context, attached to a new
    Write-kind context with the same handle. When the skipped `bufferSize` holds at least
    4, the payload is the acknowledgment. -/
theorem read_completion_submits_write (st : State) (e : Env) (cEvent : EventData)
    (bytes : List (Option Nat))
    (hw : e.waitErr = 0) (hres : 0 < e.cqe.res)
    (hctx : lookup e.cqe.userData st.ctxs = some cEvent)
    (hk : cEvent.eventType = .Read)
    (hbuf : lookup cEvent.buffer st.bufs = some bytes) :
    ∃ st' sqe,
      (loopBody st e).outcome = .running st' ∧
      submits (loopBody st e).trace = [sqe] ∧
      sqe.opcode = .write ∧ sqe.fd = cEvent.clientSocket ∧ sqe.len = 4 ∧
      sqe.userData = some st.next ∧
      lookup st.next st'.ctxs =
        some { eventType := .Write, buffer := st.next + 1, bufferSize := 4,
               clientSocket := cEvent.clientSocket } ∧
      (4 ≤ e.uninit.bufferSize → payload st' sqe = some ackPayload) := by
  rw [loopBody_read st e cEvent bytes hw (le_of_lt hres) hctx hk hbuf]
  refine ⟨_, _, rfl, rfl, rfl, rfl, rfl, rfl, ?_, ?_⟩
  · simp [lookup]
  · intro h4
    obtain ⟨k, hk4⟩ : ∃ k, e.uninit.bufferSize = k + 4 := ⟨e.uninit.bufferSize - 4, by omega⟩
    simp [payload, lookup, strncpyBytes, ackLiteral, ackPayload, hk4, List.replicate_succ]

/-- C9 (the code at the failing input): the buffer the Accept case allocates for handle 7
    has 1024 bytes, and the read it prepares asks for 1024 bytes. When that read returns
    1024, the Read case stores the terminator at index 1024, one past the last byte. -/
theorem terminator_store_past_buffer_end :
    (runLoop stListening [completion 7 0 0 0 1]).outcome = .running stReading ∧
    (lookup 2 stReading.bufs).map List.length = some 1024 ∧
    Action.bufStore 2 1024 ∈ (loopBody stReading (completion 1024 1 1 1024 1)).trace ∧
    storesInBounds stReading (loopBody stReading (completion 1024 1 1 1024 1)).trace = false := by
  have h := loopBody_read stReading (completion 1024 1 1 1024 1) _ _ rfl (by decide) rfl rfl rfl
  have hl : (unwritten 1024).length = 1024 := List.length_replicate 1024 none
  refine ⟨rfl, ?_, ?_, ?_⟩
  · show (some (unwritten 1024)).map List.length = some 1024
    rw [Option.map_some', hl]
  · rw [h]; simp [stReading, completion]
  · rw [h]
    simp [storesInBounds, stReading, completion, lookup, hl]

/-- C10 (the code at the failing input): the read context of handle 7 completes with 5
    bytes while the skipped locals hold flags 4 and size 2. The flags of the submitted
    write are 5, not the 1 that its own prepared flags with `IOSQE_FIXED_FILE` give, and
    its buffer is allocated with 2 bytes, fewer than the 4 written; with other values in
    the skipped locals the same completion gives another result. -/
theorem write_setup_reads_skipped_locals :
    submits (loopBody stReading (completion 5 1 4 2 1)).trace = [ackWrite 5] ∧
    (io_uring_prep_write 7 4 4 0).flags ||| IOSQE_FIXED_FILE = 1 ∧
    Action.mallocBuffer 4 2 ∈ (loopBody stReading (completion 5 1 4 2 1)).trace ∧
    submits (loopBody stReading (completion 5 1 0 1024 1)).trace = [ackWrite 1] ∧
    Action.mallocBuffer 4 1024 ∈ (loopBody stReading (completion 5 1 0 1024 1)).trace := by
  have h := loopBody_read stReading (completion 5 1 4 2 1) _ _ rfl (by decide) rfl rfl rfl
  have h2 := loopBody_read stReading (completion 5 1 0 1024 1) _ _ rfl (by decide) rfl rfl rfl
  refine ⟨rfl, rfl, ?_, rfl, ?_⟩
  · rw [h]; simp [stReading, completion]
  · rw [h2]; simp [stReading, completion]

/-! ## The count returned by `io_uring_submit` -/

/-- The loop body never looks at the count `io_uring_submit` returns. -/
theorem loopBody_ignores_submit_count (st : State) (e : Env) (r : Int) :
    (loopBody st { e with submitRet := r }).outcome = (loopBody st e).outcome := by
  unfold loopBody
  by_cases hw : e.waitErr = 0
  · by_cases hres : e.cqe.res < 0
    · simp [hw, hres]
    · simp only [hw, hres, ne_eq, not_true_eq_false, if_false]
      cases hl : lookup e.cqe.userData st.ctxs with
      | none => rfl
      | some c =>
        cases hk : c.eventType with
        | Accept => simp [hk, caseAccept]
        | Read =>
          simp only [hk, caseRead]
          cases lookup c.buffer st.bufs <;> rfl
        | Write => simp [hk]
  · simp [hw]

/-- C8 (the code at the failing input): the first submit is checked, a count of 0 ends the
    process with `exit(1)`. The submit of the Accept case is not: when it returns 0 for
    the read on handle 7, the loop body acknowledges the completion and the loop goes on. -/
theorem loop_continues_after_submit_mismatch :
    (startup 3 someGarbage 0).outcome = .exited 1 ∧
    Action.submit { opcode := .read, fd := 7, addr := some 2, len := 1024, off := 0,
                    flags := 1, userData := some 1 } 0 ∈
      (loopBody stListening (completion 7 0 0 0 0)).trace ∧
    (loopBody stListening (completion 7 0 0 0 0)).outcome = .running stReading ∧
    (loopBody stReading (completion 5 1 1 1024 (-16))).outcome ≠ .exited 1 := by
  have h := loopBody_accept stListening (completion 7 0 0 0 0) _ rfl (by decide) rfl rfl
  have h2 := loopBody_read stReading (completion 5 1 1 1024 (-16)) _ _ rfl (by decide) rfl rfl rfl
  refine ⟨rfl, ?_, rfl, ?_⟩
  · rw [h]; simp [stListening, completion, IOSQE_FIXED_FILE]
  · rw [h2]; simp

/-! ## Lookup and removal -/

theorem lookup_remove_self {β : Type} (a : Nat) (l : List (Nat × β)) :
    lookup a (remove a l) = none := by
  induction l with
  | nil => rfl
  | cons h t ih =>
    obtain ⟨k, v⟩ := h
    by_cases hk : k = a
    · simp [remove, hk, ih]
    · simp [remove, hk, lookup, ih]

theorem lookup_remove_ne {β : Type} (a b : Nat) (l : List (Nat × β)) (h : a ≠ b) :
    lookup a (remove b l) = lookup a l := by
  induction l with
  | nil => rfl
  | cons hd t ih =>
    obtain ⟨k, v⟩ := hd
    by_cases hk : k = b
    · have hka : ¬ k = a := fun h' => h (h'.symm.trans hk)
      simp only [remove, hk, if_true, lookup]
      rw [ih, if_neg (fun h' => h h'.symm)]
    · by_cases hka : k = a
      · subst hka
        simp only [remove, hk, if_false, lookup, if_true]
      · simp only [remove, hk, if_false, lookup, hka, ih]

theorem lookup_remove_some {β : Type} (a b : Nat) (l : List (Nat × β)) (v : β)
    (h : lookup a (remove b l) = some v) : a ≠ b ∧ lookup a l = some v := by
  by_cases hab : a = b
  · subst hab; rw [lookup_remove_self] at h; cases h
  · exact ⟨hab, by rw [← lookup_remove_ne a b l hab]; exact h⟩

theorem lookup_cons {β : Type} (a k : Nat) (v : β) (l : List (Nat × β)) :
    lookup a ((k, v) :: l) = if k = a then some v else lookup a l := rfl

theorem mem_keys_of_lookup {β : Type} (a : Nat) (l : List (Nat × β)) (v : β)
    (h : lookup a l = some v) : a ∈ l.map Prod.fst := by
  induction l with
  | nil => cases h
  | cons hd t ih =>
    obtain ⟨k, w⟩ := hd
    by_cases hk : k = a
    · simp [hk]
    · simp only [lookup, hk, if_false] at h
      simp [ih h]

theorem lookup_of_mem_keys {β : Type} (a : Nat) (l : List (Nat × β))
    (h : a ∈ l.map Prod.fst) : ∃ v, lookup a l = some v := by
  induction l with
  | nil => cases h
  | cons hd t ih =>
    obtain ⟨k, w⟩ := hd
    by_cases hk : k = a
    · exact ⟨w, by simp [lookup, hk]⟩
    · simp only [List.map_cons, List.mem_cons] at h
      rcases h with h | h
      · exact absurd h.symm hk
      · obtain ⟨v, hv⟩ := ih h
        exact ⟨v, by simp [lookup, hk, hv]⟩

theorem lookup_none_of_not_mem {β : Type} (a : Nat) (l : List (Nat × β))
    (h : a ∉ l.map Prod.fst) : lookup a l = none := by
  cases hl : lookup a l with
  | none => rfl
  | some v => exact absurd (mem_keys_of_lookup a l v hl) h

theorem keys_remove {β : Type} (a : Nat) (l : List (Nat × β)) :
    (remove a l).map Prod.fst = (l.map Prod.fst).filter (fun k => decide (k ≠ a)) := by
  induction l with
  | nil => rfl
  | cons hd t ih =>
    obtain ⟨k, w⟩ := hd
    by_cases hk : k = a
    · simp [remove, hk, ih]
    · simp [remove, hk, ih]

theorem nodup_keys_remove {β : Type} (a : Nat) (l : List (Nat × β))
    (h : (l.map Prod.fst).Nodup) : ((remove a l).map Prod.fst).Nodup := by
  rw [keys_remove]
  exact h.filter _

theorem length_remove {β : Type} (a : Nat) (l : List (Nat × β)) (v : β)
    (hn : (l.map Prod.fst).Nodup) (h : lookup a l = some v) :
    (remove a l).length + 1 = l.length := by
  induction l with
  | nil => cases h
  | cons hd t ih =>
    obtain ⟨k, w⟩ := hd
    simp only [List.map_cons, List.nodup_cons] at hn
    by_cases hk : k = a
    · subst hk
      have hnone : lookup k t = none := lookup_none_of_not_mem k t hn.1
      have hrem : remove k t = t := by
        clear ih h hnone
        induction t with
        | nil => rfl
        | cons hd2 t2 ih2 =>
          obtain ⟨k2, w2⟩ := hd2
          simp only [List.map_cons, List.mem_cons, not_or, List.nodup_cons] at hn
          have hne : k2 ≠ k := fun h' => hn.1.1 h'.symm
          simp only [remove, hne, if_false]
          rw [ih2 ⟨hn.1.2, hn.2.2⟩]
      simp [remove, hrem]
    · simp only [lookup, hk, if_false] at h
      simp [remove, hk, ih hn.2 h]

/-! ## The invariants are kept by allocation and release -/

theorem inv_alloc (acc : EventData) (st : State) (ev : EventData) (x : List (Option Nat))
    (h : Inv acc st) (hk : ev.eventType ≠ .Accept) (hb : ev.buffer = st.next + 1) :
    Inv acc { ctxs := (st.next, ev) :: st.ctxs, bufs := (st.next + 1, x) :: st.bufs,
              next := st.next + 2 } where
  next_pos := by simp
  ctx_lt := by
    intro p c hp
    show p < st.next + 2
    simp only [lookup_cons] at hp
    split at hp
    · omega
    · have := h.ctx_lt p c hp; omega
  buf_lt := by
    intro b y hp
    show b < st.next + 2
    simp only [lookup_cons] at hp
    split at hp
    · omega
    · have := h.buf_lt b y hp; omega
  ctx_nodup := by
    simp only [List.map_cons, List.nodup_cons]
    refine ⟨fun hm => ?_, h.ctx_nodup⟩
    obtain ⟨v, hv⟩ := lookup_of_mem_keys _ _ hm
    have := h.ctx_lt _ _ hv
    omega
  buf_nodup := by
    simp only [List.map_cons, List.nodup_cons]
    refine ⟨fun hm => ?_, h.buf_nodup⟩
    obtain ⟨v, hv⟩ := lookup_of_mem_keys _ _ hm
    have := h.buf_lt _ _ hv
    omega
  accept_kind := h.accept_kind
  accept_at := by
    have := h.next_pos
    simp only [lookup_cons, acceptEventAddr]
    rw [if_neg (by omega)]
    exact h.accept_at
  accept_only := by
    intro p c hp hc
    simp only [lookup_cons] at hp
    split at hp
    · cases hp; exact absurd hc hk
    · exact h.accept_only p c hp hc
  owns := by
    intro p c hp hc
    simp only [lookup_cons] at hp
    split at hp
    · cases hp
      exact ⟨x, by simp [lookup_cons, hb]⟩
    · obtain ⟨y, hy⟩ := h.owns p c hp hc
      have := h.buf_lt _ _ hy
      exact ⟨y, by simp only [lookup_cons]; rw [if_neg (by omega)]; exact hy⟩
  excl := by
    intro p q c d hp hq hc hd hcd
    simp only [lookup_cons] at hp hq
    split at hp <;> split at hq
    · omega
    · cases hp
      obtain ⟨y, hy⟩ := h.owns q d hq hd
      have := h.buf_lt _ _ hy
      omega
    · cases hq
      obtain ⟨y, hy⟩ := h.owns p c hp hc
      have := h.buf_lt _ _ hy
      omega
    · exact h.excl p q c d hp hq hc hd hcd
  disjoint := by
    intro p c hp
    simp only [lookup_cons] at hp
    split at hp
    · rename_i hpn
      subst hpn
      simp only [lookup_cons]
      rw [if_neg (by omega)]
      cases hl : lookup st.next st.bufs with
      | none => rfl
      | some y => have := h.buf_lt _ _ hl; omega
    · have := h.ctx_lt p c hp
      simp only [lookup_cons]
      rw [if_neg (by omega)]
      exact h.disjoint p c hp
  len := by simp [h.len]

theorem inv_release (acc : EventData) (st : State) (p : Nat) (c : EventData)
    (h : Inv acc st) (hp : lookup p st.ctxs = some c) (hk : c.eventType ≠ .Accept) :
    Inv acc { ctxs := remove p st.ctxs, bufs := remove c.buffer st.bufs, next := st.next } where
  next_pos := h.next_pos
  ctx_lt := fun q d hq => h.ctx_lt q d (lookup_remove_some _ _ _ _ hq).2
  buf_lt := fun b y hb => h.buf_lt b y (lookup_remove_some _ _ _ _ hb).2
  ctx_nodup := nodup_keys_remove _ _ h.ctx_nodup
  buf_nodup := nodup_keys_remove _ _ h.buf_nodup
  accept_kind := h.accept_kind
  accept_at := by
    have hne : acceptEventAddr ≠ p := by
      intro he
      rw [← he, h.accept_at] at hp
      cases hp
      exact hk h.accept_kind
    show lookup acceptEventAddr (remove p st.ctxs) = some acc
    rw [lookup_remove_ne _ _ _ hne]
    exact h.accept_at
  accept_only := fun q d hq hd => h.accept_only q d (lookup_remove_some _ _ _ _ hq).2 hd
  owns := by
    intro q d hq hd
    obtain ⟨hne, hq'⟩ := lookup_remove_some _ _ _ _ hq
    obtain ⟨y, hy⟩ := h.owns q d hq' hd
    have hbne : d.buffer ≠ c.buffer := fun he => hne (h.excl q p d c hq' hp hd hk he)
    exact ⟨y, by show lookup d.buffer (remove c.buffer st.bufs) = some y
                 rw [lookup_remove_ne _ _ _ hbne]; exact hy⟩
  excl := fun q r d f hq hr hd hf hdf =>
    h.excl q r d f (lookup_remove_some _ _ _ _ hq).2 (lookup_remove_some _ _ _ _ hr).2 hd hf hdf
  disjoint := by
    intro q d hq
    have hq' := (lookup_remove_some _ _ _ _ hq).2
    show lookup q (remove c.buffer st.bufs) = none
    cases hl : lookup q (remove c.buffer st.bufs) with
    | none => rfl
    | some y =>
      have := (lookup_remove_some _ _ _ _ hl).2
      rw [h.disjoint q d hq'] at this
      cases this
  len := by
    obtain ⟨y, hy⟩ := h.owns p c hp hk
    have h1 := length_remove p st.ctxs c h.ctx_nodup hp
    have h2 := length_remove c.buffer st.bufs y h.buf_nodup hy
    have h3 := h.len
    show (remove p st.ctxs).length = (remove c.buffer st.bufs).length + 1
    omega

theorem inv_entryState (garbage : EventData) :
    Inv { garbage with eventType := .Accept } (entryState garbage) where
  next_pos := by simp [entryState]
  ctx_lt := by
    intro p c hp
    simp only [entryState, lookup_cons, lookup, acceptEventAddr] at hp
    split at hp
    · simp [entryState]; omega
    · cases hp
  buf_lt := by intro b x hb; cases hb
  ctx_nodup := by simp [entryState]
  buf_nodup := by simp [entryState]
  accept_kind := rfl
  accept_at := rfl
  accept_only := by
    intro p c hp _
    simp only [entryState, lookup_cons, lookup, acceptEventAddr] at hp
    split at hp
    · rename_i h0; exact h0.symm
    · cases hp
  owns := by
    intro p c hp hc
    simp only [entryState, lookup_cons, lookup, acceptEventAddr] at hp
    split at hp
    · cases hp; exact absurd rfl hc
    · cases hp
  excl := by
    intro p q c d hp hq hc _ _
    simp only [entryState, lookup_cons, lookup, acceptEventAddr] at hp
    split at hp
    · cases hp; exact absurd rfl hc
    · cases hp
  disjoint := by intro p c _; rfl
  len := rfl

/-! ## Traces of concatenated runs -/

theorem submits_append (s t : List Action) : submits (s ++ t) = submits s ++ submits t := by
  induction s with
  | nil => rfl
  | cons a s ih => cases a <;> simp [submits, ih]

theorem closes_append (s t : List Action) : closes (s ++ t) = closes s ++ closes t := by
  induction s with
  | nil => rfl
  | cons a s ih => cases a <;> simp [closes, ih]

theorem frees_append (s t : List Action) : frees (s ++ t) = frees s ++ frees t := by
  induction s with
  | nil => rfl
  | cons a s ih => cases a <;> simp [frees, ih]

theorem mallocs_append (s t : List Action) : mallocs (s ++ t) = mallocs s ++ mallocs t := by
  induction s with
  | nil => rfl
  | cons a s ih => cases a <;> simp [mallocs, ih]

theorem readsPrepared_append (s t : List Action) :
    readsPrepared (s ++ t) = readsPrepared s + readsPrepared t := by
  induction s with
  | nil => simp [readsPrepared]
  | cons a s ih => cases a <;> simp [readsPrepared, ih]; omega

theorem acknowledged_append (s t : List Action) :
    acknowledged (s ++ t) = acknowledged s + acknowledged t := by
  induction s with
  | nil => simp [acknowledged]
  | cons a s ih => cases a <;> simp [acknowledged, ih]; omega

theorem memSafe_append (s t : List Action) :
    ∀ freed, memSafe freed (s ++ t) =
      (memSafe freed s && memSafe ((frees s).reverse ++ freed) t) := by
  induction s with
  | nil => intro freed; simp [memSafe, frees]
  | cons a s ih =>
    intro freed
    cases a <;> simp [memSafe, frees, ih, Bool.and_assoc]

/-! ## Released blocks and entries in flight -/

theorem freedOk_alloc (freed : List Nat) (st : State) (ev : EventData) (x : List (Option Nat))
    (h : FreedOk freed st) :
    FreedOk freed { ctxs := (st.next, ev) :: st.ctxs, bufs := (st.next + 1, x) :: st.bufs,
                    next := st.next + 2 } := by
  intro y hy
  obtain ⟨h1, h2, h3⟩ := h y hy
  refine ⟨?_, ?_, ?_⟩
  · show y < st.next + 2
    omega
  · show lookup y ((st.next, ev) :: st.ctxs) = none
    rw [lookup_cons, if_neg (by omega)]; exact h2
  · show lookup y ((st.next + 1, x) :: st.bufs) = none
    rw [lookup_cons, if_neg (by omega)]; exact h3

theorem lookup_remove_none {β : Type} (a b : Nat) (l : List (Nat × β))
    (h : lookup a l = none) : lookup a (remove b l) = none := by
  cases hl : lookup a (remove b l) with
  | none => rfl
  | some v =>
    have := (lookup_remove_some _ _ _ _ hl).2
    rw [h] at this; cases this

theorem freedOk_release (acc : EventData) (freed : List Nat) (st : State) (p : Nat)
    (c : EventData) (hi : Inv acc st) (hp : lookup p st.ctxs = some c)
    (hk : c.eventType ≠ .Accept) (h : FreedOk freed st) :
    FreedOk (p :: c.buffer :: freed)
      { ctxs := remove p st.ctxs, bufs := remove c.buffer st.bufs, next := st.next } := by
  obtain ⟨y, hy⟩ := hi.owns p c hp hk
  intro z hz
  simp only [List.mem_cons] at hz
  rcases hz with hz | hz | hz
  · subst hz
    exact ⟨hi.ctx_lt _ _ hp, lookup_remove_self _ _,
      lookup_remove_none _ _ _ (hi.disjoint _ _ hp)⟩
  · subst hz
    refine ⟨hi.buf_lt _ _ hy, lookup_remove_none _ _ _ ?_, lookup_remove_self _ _⟩
    cases hl : lookup c.buffer st.ctxs with
    | none => rfl
    | some d =>
      have := hi.disjoint _ _ hl
      rw [hy] at this; cases this
  · obtain ⟨h1, h2, h3⟩ := h z hz
    exact ⟨h1, lookup_remove_none _ _ _ h2, lookup_remove_none _ _ _ h3⟩

theorem inflOk_alloc (acc : EventData) (infl : List Sqe) (st : State) (ev : EventData)
    (x : List (Option Nat)) (sqe : Sqe) (hi : Inv acc st) (h : InflOk infl st)
    (hu : sqe.userData = some st.next) (ho : sqe.opcode ≠ .multishotAcceptDirect) :
    InflOk (infl ++ [sqe])
      { ctxs := (st.next, ev) :: st.ctxs, bufs := (st.next + 1, x) :: st.bufs,
        next := st.next + 2 } := by
  intro s hs
  simp only [List.mem_append, List.mem_singleton] at hs
  rcases hs with hs | hs
  · obtain ⟨⟨q, d, hq, hd⟩, h2⟩ := h s hs
    refine ⟨⟨q, d, hq, ?_⟩, h2⟩
    have := hi.ctx_lt _ _ hd
    show lookup q ((st.next, ev) :: st.ctxs) = some d
    rw [lookup_cons, if_neg (by omega)]; exact hd
  · subst hs
    exact ⟨⟨st.next, ev, hu, by simp [lookup_cons]⟩, fun h' => absurd h' ho⟩

theorem inflOk_consume (infl : List Sqe) (st : State) (p : Nat) (h : InflOk infl st) :
    InflOk (consume infl p) st := by
  intro s hs
  exact h s (List.mem_filter.mp hs).1

theorem inflOk_release (acc : EventData) (infl : List Sqe) (st : State) (p : Nat)
    (c : EventData) (hi : Inv acc st) (hp : lookup p st.ctxs = some c)
    (hk : c.eventType ≠ .Accept) (h : InflOk infl st) :
    InflOk (consume infl p)
      { ctxs := remove p st.ctxs, bufs := remove c.buffer st.bufs, next := st.next } := by
  have hp0 : p ≠ acceptEventAddr := by
    intro he
    rw [he, hi.accept_at] at hp
    cases hp
    exact hk hi.accept_kind
  intro s hs
  obtain ⟨hs1, hs2⟩ := List.mem_filter.mp hs
  obtain ⟨⟨q, d, hq, hd⟩, h2⟩ := h s hs1
  refine ⟨⟨q, d, hq, ?_⟩, h2⟩
  have hqp : q ≠ p := by
    intro he
    subst he
    simp only [Bool.or_eq_true, decide_eq_true_eq] at hs2
    rcases hs2 with hm | hn
    · have := h2 hm
      rw [hq] at this
      exact hp0 (Option.some.inj this)
    · exact hn hq
  show lookup q (remove p st.ctxs) = some d
  rw [lookup_remove_ne _ _ _ hqp]; exact hd

theorem inFlight_live (infl : List Sqe) (st : State) (p : Nat) (h : InflOk infl st)
    (hp : inFlight infl p = true) : ∃ c, lookup p st.ctxs = some c := by
  simp only [inFlight, List.any_eq_true, decide_eq_true_eq] at hp
  obtain ⟨s, hs, hsp⟩ := hp
  obtain ⟨⟨q, d, hq, hd⟩, _⟩ := h s hs
  rw [hsp] at hq
  cases hq
  exact ⟨d, hd⟩

theorem not_mem_freed_of_ctx (freed : List Nat) (st : State) (p : Nat) (c : EventData)
    (h : FreedOk freed st) (hp : lookup p st.ctxs = some c) : p ∉ freed := by
  intro hm
  have := (h p hm).2.1
  rw [hp] at this; cases this

theorem not_mem_freed_of_buf (freed : List Nat) (st : State) (b : Nat) (x : List (Option Nat))
    (h : FreedOk freed st) (hb : lookup b st.bufs = some x) : b ∉ freed := by
  intro hm
  have := (h b hm).2.2
  rw [hb] at this; cases this

theorem not_mem_freed_of_ge (freed : List Nat) (st : State) (a : Nat)
    (h : FreedOk freed st) (ha : st.next ≤ a) : a ∉ freed := by
  intro hm
  have := (h a hm).1
  omega

/-! ## One iteration under the ring's contract -/

theorem step_ok (acc : EventData) (st : State) (infl : List Sqe) (freed : List Nat) (e : Env)
    (hi : Inv acc st) (hf : InflOk infl st) (hr : FreedOk freed st)
    (hw : e.waitErr = 0) (hres : 0 ≤ e.cqe.res)
    (hfl : inFlight infl e.cqe.userData = true) :
    ∃ st' c,
      (loopBody st e).outcome = .running st' ∧
      lookup e.cqe.userData st.ctxs = some c ∧
      Inv acc st' ∧
      InflOk (consume infl e.cqe.userData ++ submits (loopBody st e).trace) st' ∧
      FreedOk ((frees (loopBody st e).trace).reverse ++ freed) st' ∧
      memSafe freed (loopBody st e).trace = true ∧
      acknowledged (loopBody st e).trace = 1 ∧
      frees (loopBody st e).trace =
        (if c.eventType = .Accept then [] else [c.buffer, e.cqe.userData]) ∧
      st'.bufs.length + (closes (loopBody st e).trace).length =
        st.bufs.length + readsPrepared (loopBody st e).trace ∧
      (mallocs (loopBody st e).trace).length + 2 * (closes (loopBody st e).trace).length =
        (frees (loopBody st e).trace).length + 2 * readsPrepared (loopBody st e).trace := by
  obtain ⟨c, hc⟩ := inFlight_live infl st _ hf hfl
  have hpF := not_mem_freed_of_ctx freed st _ c hr hc
  have hnF := not_mem_freed_of_ge freed st st.next hr (le_refl _)
  have hn1F := not_mem_freed_of_ge freed st (st.next + 1) hr (Nat.le_succ _)
  have hplt := hi.ctx_lt _ _ hc
  cases hk : c.eventType with
  | Accept =>
    have hstep := loopBody_accept st e c hw hres hc hk
    refine ⟨_, c, by rw [hstep], hc, ?_⟩
    rw [hstep]
    refine ⟨inv_alloc acc st _ _ hi (by simp) rfl, ?_, ?_, ?_, rfl, by simp [frees, hk], ?_, ?_⟩
    · exact inflOk_alloc acc _ st _ _ _ hi (inflOk_consume infl st _ hf) rfl (by simp)
    · exact freedOk_alloc freed st _ _ hr
    · simp [memSafe, Action.touched, hpF, hnF]
    · simp [closes, readsPrepared]
    · simp [closes, readsPrepared, mallocs, frees]
  | Read =>
    have hkne : c.eventType ≠ .Accept := by simp [hk]
    obtain ⟨y, hy⟩ := hi.owns _ c hc hkne
    have hbF := not_mem_freed_of_buf freed st _ y hr hy
    have hblt := hi.buf_lt _ _ hy
    have hpb : e.cqe.userData ≠ c.buffer := by
      intro he
      have := hi.disjoint _ _ hc
      rw [he, hy] at this; cases this
    have hstep := loopBody_read st e c y hw hres hc hk hy
    have hrel := inv_release acc st _ c hi hc hkne
    have hlen := hrel.len
    have hlen0 := hi.len
    have hl1 := length_remove _ st.bufs y hi.buf_nodup hy
    refine ⟨_, c, by rw [hstep], hc, ?_⟩
    rw [hstep]
    refine ⟨inv_alloc acc _ _ _ hrel (by simp) rfl, ?_, ?_, ?_, rfl, by simp [frees, hk], ?_, ?_⟩
    · exact inflOk_alloc acc _ _ _ _ _ hrel (inflOk_release acc infl st _ c hi hc hkne hf)
        rfl (by simp)
    · exact freedOk_alloc _ _ _ _ (freedOk_release acc freed st _ c hi hc hkne hr)
    · have h1 : st.next ≠ e.cqe.userData := by omega
      have h2 : st.next ≠ c.buffer := by omega
      have h3 : st.next + 1 ≠ e.cqe.userData := by omega
      have h4 : st.next + 1 ≠ c.buffer := by omega
      simp [memSafe, Action.touched, hpF, hnF, hn1F, hbF, hpb, h1, h2, h3, h4]
    · simp only [closes, readsPrepared, List.length_cons, List.length_nil]
      omega
    · simp [closes, readsPrepared, mallocs, frees]
  | Write =>
    have hkne : c.eventType ≠ .Accept := by simp [hk]
    obtain ⟨y, hy⟩ := hi.owns _ c hc hkne
    have hbF := not_mem_freed_of_buf freed st _ y hr hy
    have hpb : e.cqe.userData ≠ c.buffer := by
      intro he
      have := hi.disjoint _ _ hc
      rw [he, hy] at this; cases this
    have hstep := loopBody_write st e c y hw hres hc hk hy
    have hrel := inv_release acc st _ c hi hc hkne
    have hl1 := length_remove _ st.bufs y hi.buf_nodup hy
    refine ⟨_, c, by rw [hstep], hc, ?_⟩
    rw [hstep]
    refine ⟨hrel, ?_, ?_, ?_, rfl, by simp [frees, hk], ?_, ?_⟩
    · simp only [submits, List.append_nil]
      exact inflOk_release acc infl st _ c hi hc hkne hf
    · exact freedOk_release acc freed st _ c hi hc hkne hr
    · simp [memSafe, Action.touched, hpF, hbF, hpb]
    · simp only [closes, readsPrepared, List.length_cons, List.length_nil]
      omega
    · simp [closes, readsPrepared, mallocs, frees]

/-! ## Runs under the ring's contract -/

theorem runLoop_cons_running (st st' : State) (e : Env) (es : List Env)
    (h : (loopBody st e).outcome = .running st') :
    runLoop st (e :: es) =
      { trace := (loopBody st e).trace ++ (runLoop st' es).trace,
        outcome := (runLoop st' es).outcome } := by
  simp only [runLoop, h]

theorem ringDelivers_cons (infl : List Sqe) (st st' : State) (e : Env) (es : List Env)
    (h : ringDelivers infl st (e :: es) = true)
    (hs : (loopBody st e).outcome = .running st') :
    e.waitErr = 0 ∧ 0 ≤ e.cqe.res ∧ inFlight infl e.cqe.userData = true ∧
    ringDelivers (consume infl e.cqe.userData ++ submits (loopBody st e).trace) st' es = true := by
  simp only [ringDelivers, hs, Bool.and_eq_true, decide_eq_true_eq] at h
  exact ⟨h.1.1.1, h.1.1.2, h.1.2, h.2⟩

theorem ringDelivers_head (infl : List Sqe) (st : State) (e : Env) (es : List Env)
    (h : ringDelivers infl st (e :: es) = true) :
    e.waitErr = 0 ∧ 0 ≤ e.cqe.res ∧ inFlight infl e.cqe.userData = true := by
  simp only [ringDelivers, Bool.and_eq_true, decide_eq_true_eq] at h
  exact ⟨h.1.1.1, h.1.1.2, h.1.2⟩

theorem run_ok (acc : EventData) :
    ∀ (envs : List Env) (st : State) (infl : List Sqe) (freed : List Nat),
      Inv acc st → InflOk infl st → FreedOk freed st → ringDelivers infl st envs = true →
      ∃ st',
        (runLoop st envs).outcome = .running st' ∧ Inv acc st' ∧
        memSafe freed (runLoop st envs).trace = true ∧
        acknowledged (runLoop st envs).trace = envs.length ∧
        st'.bufs.length + (closes (runLoop st envs).trace).length =
          st.bufs.length + readsPrepared (runLoop st envs).trace ∧
        (mallocs (runLoop st envs).trace).length + 2 * (closes (runLoop st envs).trace).length =
          (frees (runLoop st envs).trace).length + 2 * readsPrepared (runLoop st envs).trace := by
  intro envs
  induction envs with
  | nil =>
    intro st infl freed hi _ _ _
    exact ⟨st, rfl, hi, rfl, rfl, rfl, rfl⟩
  | cons e es ih =>
    intro st infl freed hi hf hr hd
    obtain ⟨hw, hres, hfl⟩ := ringDelivers_head infl st e es hd
    obtain ⟨st1, c, hout, _, hi1, hf1, hr1, hm1, ha1, _, hb1, hc1⟩ :=
      step_ok acc st infl freed e hi hf hr hw hres hfl
    have hd1 := (ringDelivers_cons infl st st1 e es hd hout).2.2.2
    obtain ⟨st2, hout2, hi2, hm2, ha2, hb2, hc2⟩ := ih st1 _ _ hi1 hf1 hr1 hd1
    rw [runLoop_cons_running st st1 e es hout]
    refine ⟨st2, hout2, hi2, ?_, ?_, ?_, ?_⟩
    · simp only [memSafe_append, hm1, hm2, Bool.and_self]
    · simp only [acknowledged_append, ha1, ha2, List.length_cons]; omega
    · simp only [closes_append, readsPrepared_append, List.length_append]; omega
    · simp only [closes_append, readsPrepared_append, mallocs_append, frees_append,
        List.length_append]
      omega

theorem run_prefix (acc : EventData) :
    ∀ (pre : List Env) (st : State) (infl : List Sqe) (freed : List Nat) (post : List Env),
      Inv acc st → InflOk infl st → FreedOk freed st →
      ringDelivers infl st (pre ++ post) = true →
      ∃ st' infl' freed',
        (runLoop st pre).outcome = .running st' ∧ Inv acc st' ∧ InflOk infl' st' ∧
        FreedOk freed' st' ∧ ringDelivers infl' st' post = true := by
  intro pre
  induction pre with
  | nil =>
    intro st infl freed post hi hf hr hd
    exact ⟨st, infl, freed, rfl, hi, hf, hr, hd⟩
  | cons e es ih =>
    intro st infl freed post hi hf hr hd
    obtain ⟨hw, hres, hfl⟩ := ringDelivers_head infl st e (es ++ post) hd
    obtain ⟨st1, c, hout, _, hi1, hf1, hr1, _⟩ :=
      step_ok acc st infl freed e hi hf hr hw hres hfl
    have hd1 := (ringDelivers_cons infl st st1 e (es ++ post) hd hout).2.2.2
    obtain ⟨st2, infl2, freed2, hout2, h2⟩ := ih st1 _ _ post hi1 hf1 hr1 hd1
    rw [runLoop_cons_running st st1 e es hout]
    exact ⟨st2, infl2, freed2, hout2, h2⟩

theorem memSafe_frees_nodup (t : List Action) :
    ∀ freed, memSafe freed t = true → (frees t).Nodup ∧ ∀ x ∈ frees t, x ∉ freed := by
  induction t with
  | nil => intro freed _; simp [frees]
  | cons a t ih =>
    intro freed h
    cases a
    case free x =>
      simp only [memSafe, Bool.and_eq_true, decide_eq_true_eq] at h
      obtain ⟨h1, h2⟩ := ih (x :: freed) h.2
      simp only [frees, List.nodup_cons, List.mem_cons]
      refine ⟨⟨fun hx => ?_, h1⟩, ?_⟩
      · exact h2 x hx (List.mem_cons_self _ _)
      · intro y hy
        rcases hy with hy | hy
        · subst hy; exact h.1
        · exact fun hm => h2 y hy (List.mem_cons_of_mem _ hm)
    all_goals
      simp only [memSafe, Bool.and_eq_true] at h
      exact ih freed h.2

theorem startup_ok (serverSocket : Int) (garbage : EventData) :
    startup serverSocket garbage 1 =
      { trace := [.getSqe, .prepAccept serverSocket, .store acceptEventAddr,
                  .setData acceptEventAddr, .submit (acceptEntry serverSocket) 1],
        outcome := .running (entryState garbage) } := by
  simp [startup, entryState, acceptEntry, io_uring_prep_multishot_accept_direct,
    io_uring_sqe_set_data]

theorem startEventLoop_ok (serverSocket : Int) (garbage : EventData) (envs : List Env) :
    startEventLoop serverSocket garbage 1 envs =
      { trace := [.getSqe, .prepAccept serverSocket, .store acceptEventAddr,
                  .setData acceptEventAddr, .submit (acceptEntry serverSocket) 1] ++
                 (runLoop (entryState garbage) envs).trace,
        outcome := (runLoop (entryState garbage) envs).outcome } := by
  simp only [startEventLoop, startup_ok]

theorem inflOk_entry (serverSocket : Int) (garbage : EventData) :
    InflOk [acceptEntry serverSocket] (entryState garbage) := by
  intro s hs
  simp only [List.mem_singleton] at hs
  subst hs
  exact ⟨⟨acceptEventAddr, _, rfl, rfl⟩, fun _ => rfl⟩

theorem freedOk_nil (st : State) : FreedOk [] st := by
  intro x hx; cases hx

theorem eq_singleton_of_length_one {β : Type} (l : List (Nat × β)) (a : Nat) (v : β)
    (hl : l.length = 1) (h : lookup a l = some v) : l = [(a, v)] := by
  match l, hl with
  | [(k, w)], _ =>
    simp only [lookup] at h
    split at h
    · rename_i hk; cases h; rw [hk]
    · cases h

/-! ## Lifetime of the contexts -/

/-- C5: in every run of `startEventLoop` in which the ring delivers non-negative
    completions of entries in flight, the loop keeps running and
    * no block is read, written or released after its release (`memSafe`), so no
      `EventData` and no buffer is released twice;
    * every completion is acknowledged once: the iteration that handles it makes one
      `io_uring_cqe_seen` call, and the run makes as many as it handled completions;
    * the iteration that handles the completion of a Read or Write context releases that
      context and its buffer and nothing else, the one of an Accept completion nothing;
    * once as many write completions (one `close` each) as accept completions (one
      prepared read each) are handled, only the local `acceptEvent` is left: no
      `EventData`, no buffer, as many `malloc` as `free` calls. -/
theorem contexts_released_once_never_used_after (serverSocket : Int) (garbage : EventData)
    (envs : List Env)
    (hring : ringDelivers [acceptEntry serverSocket] (entryState garbage) envs = true) :
    ∃ st,
      (startEventLoop serverSocket garbage 1 envs).outcome = .running st ∧
      memSafe [] (startEventLoop serverSocket garbage 1 envs).trace = true ∧
      (frees (startEventLoop serverSocket garbage 1 envs).trace).Nodup ∧
      acknowledged (startEventLoop serverSocket garbage 1 envs).trace = envs.length ∧
      (∀ pre e post st1, envs = pre ++ e :: post →
        (runLoop (entryState garbage) pre).outcome = .running st1 →
        ∃ c, lookup e.cqe.userData st1.ctxs = some c ∧
          frees (loopBody st1 e).trace =
            (if c.eventType = .Accept then [] else [c.buffer, e.cqe.userData]) ∧
          acknowledged (loopBody st1 e).trace = 1) ∧
      ((closes (startEventLoop serverSocket garbage 1 envs).trace).length =
          readsPrepared (startEventLoop serverSocket garbage 1 envs).trace →
        st.ctxs = [(acceptEventAddr, { garbage with eventType := .Accept })] ∧
        st.bufs = [] ∧
        (mallocs (startEventLoop serverSocket garbage 1 envs).trace).length =
          (frees (startEventLoop serverSocket garbage 1 envs).trace).length) := by
  have hi0 := inv_entryState garbage
  have hf0 := inflOk_entry serverSocket garbage
  have hr0 := freedOk_nil (entryState garbage)
  obtain ⟨st, hout, hi, hm, ha, hb, hc⟩ := run_ok _ envs _ _ _ hi0 hf0 hr0 hring
  rw [startEventLoop_ok]
  have hmem : memSafe [] ([Action.getSqe, .prepAccept serverSocket, .store acceptEventAddr,
      .setData acceptEventAddr, .submit (acceptEntry serverSocket) 1] ++
      (runLoop (entryState garbage) envs).trace) = true := by
    rw [memSafe_append]
    simp [memSafe, Action.touched, frees, hm]
  refine ⟨st, hout, hmem, (memSafe_frees_nodup _ [] hmem).1, ?_, ?_, ?_⟩
  · rw [acknowledged_append, ha]
    simp [acknowledged]
  · intro pre e post st1 henvs hpre
    rw [henvs] at hring
    obtain ⟨st1', infl1, freed1, hout1, hi1, hf1, hr1, hd1⟩ :=
      run_prefix _ pre _ _ _ (e :: post) hi0 hf0 hr0 hring
    rw [hpre] at hout1
    cases hout1
    obtain ⟨hw, hres, hfl⟩ := ringDelivers_head infl1 st1 e post hd1
    obtain ⟨_, c, _, hc1, _, _, _, _, hack, hfr, _⟩ :=
      step_ok _ st1 infl1 freed1 e hi1 hf1 hr1 hw hres hfl
    exact ⟨c, hc1, hfr, hack⟩
  · intro hq
    have h1 : closes [Action.getSqe, .prepAccept serverSocket, .store acceptEventAddr,
      .setData acceptEventAddr, .submit (acceptEntry serverSocket) 1] = [] := rfl
    have h2 : readsPrepared [Action.getSqe, .prepAccept serverSocket, .store acceptEventAddr,
      .setData acceptEventAddr, .submit (acceptEntry serverSocket) 1] = 0 := rfl
    have h3 : mallocs [Action.getSqe, .prepAccept serverSocket, .store acceptEventAddr,
      .setData acceptEventAddr, .submit (acceptEntry serverSocket) 1] = [] := rfl
    have h4 : frees [Action.getSqe, .prepAccept serverSocket, .store acceptEventAddr,
      .setData acceptEventAddr, .submit (acceptEntry serverSocket) 1] = [] := rfl
    rw [closes_append, readsPrepared_append, h1, h2] at hq
    rw [mallocs_append, frees_append, h3, h4]
    simp only [List.nil_append, Nat.zero_add] at hq ⊢
    have hb0 : (entryState garbage).bufs.length = 0 := rfl
    have hlen := hi.len
    have hbl : st.bufs.length = 0 := by omega
    refine ⟨?_, List.length_eq_zero.mp hbl, by omega⟩
    exact eq_singleton_of_length_one st.ctxs _ _ (by omega) hi.accept_at

theorem contexts_released_once_never_used_after_witness :
    ringDelivers [acceptEntry 3] (entryState someGarbage) twoConnections = true ∧
    (startEventLoop 3 someGarbage 1 twoConnections).outcome =
      .running { ctxs := [(0, { someGarbage with eventType := .Accept })], bufs := [],
                 next := 9 } ∧
    memSafe [] (startEventLoop 3 someGarbage 1 twoConnections).trace = true ∧
    frees (startEventLoop 3 someGarbage 1 twoConnections).trace = [4, 3, 2, 1, 8, 7, 6, 5] ∧
    acknowledged (startEventLoop 3 someGarbage 1 twoConnections).trace = 6 ∧
    (mallocs (startEventLoop 3 someGarbage 1 twoConnections).trace).length =
      (frees (startEventLoop 3 someGarbage 1 twoConnections).trace).length :=
  match contexts_released_once_never_used_after 3 someGarbage twoConnections rfl with
  | ⟨_, _, h2, _, h4, _, h6⟩ => ⟨rfl, rfl, h2, rfl, h4, (h6 rfl).2.2⟩

/-! ## The accept registration -/

theorem quiet_append (s t : List Action) (hs : Quiet s) (ht : Quiet t) : Quiet (s ++ t) := by
  obtain ⟨s1, s2, s3, s4⟩ := hs
  obtain ⟨t1, t2, t3, t4⟩ := ht
  refine ⟨?_, ?_, ?_, ?_⟩
  · intro fd hm
    rcases List.mem_append.mp hm with h | h
    · exact s1 fd h
    · exact t1 fd h
  · intro sqe hm
    rw [submits_append] at hm
    rcases List.mem_append.mp hm with h | h
    · exact s2 sqe h
    · exact t2 sqe h
  · intro hm
    rcases List.mem_append.mp hm with h | h
    · exact s3 h
    · exact t3 h
  · intro hm
    rcases List.mem_append.mp hm with h | h
    · exact s4 h
    · exact t4 h

theorem acceptKept_step (acc : EventData) (st : State) (e : Env) (h : AcceptKept acc st) :
    Quiet (loopBody st e).trace ∧
    ∀ st', (loopBody st e).outcome = .running st' → AcceptKept acc st' := by
  have hn := h.next_pos
  have hn0 : st.next ≠ acceptEventAddr := by simp only [acceptEventAddr]; omega
  by_cases hw : e.waitErr = 0
  swap
  · simp [loopBody, hw, Quiet, submits]
  by_cases hres : e.cqe.res < 0
  · simp [loopBody, hw, hres, Quiet, submits]
  have hres' : 0 ≤ e.cqe.res := not_lt.mp hres
  cases hc : lookup e.cqe.userData st.ctxs with
  | none => simp [loopBody, hw, hres, hc, Quiet, submits]
  | some c =>
    cases hk : c.eventType with
    | Accept =>
      rw [loopBody_accept st e c hw hres' hc hk]
      have hp := h.accept_only _ _ hc hk
      refine ⟨?_, ?_⟩
      · simp [Quiet, submits, Ne.symm hn0]
      · intro st' hst
        cases hst
        refine ⟨by simp, h.accept_kind, ?_, ?_, ?_⟩
        · show lookup acceptEventAddr ((st.next, _) :: st.ctxs) = some acc
          rw [lookup_cons, if_neg hn0]; exact h.accept_at
        · intro q d hq hd
          simp only [lookup_cons] at hq
          split at hq
          · cases hq; cases hd
          · exact h.accept_only q d hq hd
        · show lookup acceptEventAddr ((st.next + 1, _) :: st.bufs) = none
          rw [lookup_cons, if_neg (by simp [acceptEventAddr])]; exact h.no_buf
    | Read =>
      have hp0 : e.cqe.userData ≠ acceptEventAddr := by
        intro he
        rw [he, h.accept_at] at hc
        cases hc
        rw [h.accept_kind] at hk; cases hk
      cases hb : lookup c.buffer st.bufs with
      | none => simp [loopBody, hw, hres, hc, hk, caseRead, hb, Quiet, submits, Ne.symm hp0]
      | some y =>
        have hb0 : c.buffer ≠ acceptEventAddr := by
          intro he
          rw [he, h.no_buf] at hb; cases hb
        rw [loopBody_read st e c y hw hres' hc hk hb]
        refine ⟨?_, ?_⟩
        · simp [Quiet, submits, Ne.symm hn0, Ne.symm hp0, Ne.symm hb0]
        · intro st' hst
          cases hst
          refine ⟨by simp, h.accept_kind, ?_, ?_, ?_⟩
          · show lookup acceptEventAddr ((st.next, _) :: remove _ st.ctxs) = some acc
            rw [lookup_cons, if_neg hn0, lookup_remove_ne _ _ _ (Ne.symm hp0)]
            exact h.accept_at
          · intro q d hq hd
            simp only [lookup_cons] at hq
            split at hq
            · cases hq; cases hd
            · exact h.accept_only q d (lookup_remove_some _ _ _ _ hq).2 hd
          · show lookup acceptEventAddr ((st.next + 1, _) :: remove _ st.bufs) = none
            rw [lookup_cons, if_neg (by simp [acceptEventAddr])]
            exact lookup_remove_none _ _ _ h.no_buf
    | Write =>
      have hp0 : e.cqe.userData ≠ acceptEventAddr := by
        intro he
        rw [he, h.accept_at] at hc
        cases hc
        rw [h.accept_kind] at hk; cases hk
      cases hb : lookup c.buffer st.bufs with
      | none => simp [loopBody, hw, hres, hc, hk, caseWrite, hb, Quiet, submits, Ne.symm hp0]
      | some y =>
        have hb0 : c.buffer ≠ acceptEventAddr := by
          intro he
          rw [he, h.no_buf] at hb; cases hb
        rw [loopBody_write st e c y hw hres' hc hk hb]
        refine ⟨?_, ?_⟩
        · simp [Quiet, submits, Ne.symm hp0, Ne.symm hb0]
        · intro st' hst
          cases hst
          refine ⟨hn, h.accept_kind, ?_, ?_, ?_⟩
          · show lookup acceptEventAddr (remove _ st.ctxs) = some acc
            rw [lookup_remove_ne _ _ _ (Ne.symm hp0)]
            exact h.accept_at
          · intro q d hq hd
            exact h.accept_only q d (lookup_remove_some _ _ _ _ hq).2 hd
          · exact lookup_remove_none _ _ _ h.no_buf

theorem acceptKept_run (acc : EventData) :
    ∀ (envs : List Env) (st : State), AcceptKept acc st →
      Quiet (runLoop st envs).trace ∧
      ∀ st', (runLoop st envs).outcome = .running st' → AcceptKept acc st' := by
  intro envs
  induction envs with
  | nil =>
    intro st h
    refine ⟨by simp [runLoop, Quiet, submits], ?_⟩
    intro st' hst
    cases hst
    exact h
  | cons e es ih =>
    intro st h
    obtain ⟨hq, hk⟩ := acceptKept_step acc st e h
    cases ho : (loopBody st e).outcome with
    | running st1 =>
      rw [runLoop_cons_running st st1 e es ho]
      obtain ⟨hq1, hk1⟩ := ih st1 (hk st1 ho)
      exact ⟨quiet_append _ _ hq hq1, hk1⟩
    | exited code =>
      have hr : runLoop st (e :: es) = loopBody st e := by simp only [runLoop, ho]
      rw [hr]
      exact ⟨hq, hk⟩
    | undefined =>
      have hr : runLoop st (e :: es) = loopBody st e := by simp only [runLoop, ho]
      rw [hr]
      exact ⟨hq, hk⟩

theorem acceptKept_entry (garbage : EventData) :
    AcceptKept { garbage with eventType := .Accept } (entryState garbage) :=
  ⟨by simp [entryState], rfl, rfl, (inv_entryState garbage).accept_only, rfl⟩

/-- C7: the function submits one accept in its whole run, the multishot accept on the
    listening handle, prepared and given the local `acceptEvent` (kind Accept) as context
    before the loop. Whatever completions the loop then handles, it prepares no other
    accept, submits only reads and writes (it has no cancel operation), and neither
    releases nor writes `acceptEvent`; so `acceptEvent` is still in place with kind
    Accept, it is the only context of that kind, and a later completion that carries it
    is handled by the Accept case. -/
theorem accept_registered_once_and_kept (serverSocket : Int) (garbage : EventData)
    (envs : List Env) :
    (startEventLoop serverSocket garbage 1 envs).trace =
      [.getSqe, .prepAccept serverSocket, .store acceptEventAddr, .setData acceptEventAddr,
       .submit (acceptEntry serverSocket) 1] ++ (runLoop (entryState garbage) envs).trace ∧
    (∀ fd, Action.prepAccept fd ∉ (runLoop (entryState garbage) envs).trace) ∧
    (∀ sqe ∈ submits (runLoop (entryState garbage) envs).trace,
      sqe.opcode = .read ∨ sqe.opcode = .write) ∧
    Action.free acceptEventAddr ∉ (runLoop (entryState garbage) envs).trace ∧
    Action.store acceptEventAddr ∉ (runLoop (entryState garbage) envs).trace ∧
    (∀ st, (startEventLoop serverSocket garbage 1 envs).outcome = .running st →
      lookup acceptEventAddr st.ctxs = some { garbage with eventType := .Accept } ∧
      (∀ p c, lookup p st.ctxs = some c → c.eventType = .Accept → p = acceptEventAddr) ∧
      (∀ e, e.waitErr = 0 → 0 ≤ e.cqe.res → e.cqe.userData = acceptEventAddr →
        loopBody st e = caseAccept st e acceptEventAddr)) := by
  obtain ⟨⟨q1, q2, q3, q4⟩, hk⟩ := acceptKept_run _ envs _ (acceptKept_entry garbage)
  rw [startEventLoop_ok]
  refine ⟨rfl, q1, q2, q3, q4, ?_⟩
  intro st hst
  have h := hk st hst
  refine ⟨h.accept_at, h.accept_only, ?_⟩
  intro e hw hres hp
  have hres' : ¬ e.cqe.res < 0 := not_lt.mpr hres
  have hat := h.accept_at
  simp only [loopBody, hw, hres', hp, hat, ne_eq, not_true_eq_false, if_false]

theorem accept_registered_once_and_kept_witness :
    submits (startEventLoop 3 someGarbage 1 twoConnections).trace =
      acceptEntry 3 :: submits (runLoop (entryState someGarbage) twoConnections).trace ∧
    Action.free acceptEventAddr ∉ (runLoop (entryState someGarbage) twoConnections).trace ∧
    (completion 9 0 1 1024 1).waitErr = 0 ∧ 0 ≤ (completion 9 0 1 1024 1).cqe.res ∧
    (completion 9 0 1 1024 1).cqe.userData = acceptEventAddr ∧
    loopBody { ctxs := [(0, { someGarbage with eventType := .Accept })], bufs := [], next := 9 }
        (completion 9 0 1 1024 1) =
      caseAccept { ctxs := [(0, { someGarbage with eventType := .Accept })], bufs := [],
                   next := 9 } (completion 9 0 1 1024 1) acceptEventAddr :=
  have h := accept_registered_once_and_kept 3 someGarbage twoConnections
  ⟨by rw [h.1]; rfl, h.2.2.2.1, rfl, by decide, rfl,
    (h.2.2.2.2.2 _ rfl).2.2 (completion 9 0 1 1024 1) rfl (by decide) rfl⟩

/-! ## Handles in a trace -/

theorem acceptedHandles_append (s t : List Action) :
    acceptedHandles (s ++ t) = acceptedHandles s ++ acceptedHandles t := by
  induction s with
  | nil => rfl
  | cons a s ih => cases a <;> simp [acceptedHandles, ih]

theorem writtenHandles_append (s t : List Action) :
    writtenHandles (s ++ t) = writtenHandles s ++ writtenHandles t := by
  induction s with
  | nil => rfl
  | cons a s ih => cases a <;> simp [writtenHandles, ih]

/-! ## The storage of `bufferSize` in a run -/

theorem running_step (st st' : State) (e : Env)
    (h : (loopBody st e).outcome = .running st') :
    e.waitErr = 0 ∧ 0 ≤ e.cqe.res ∧
    ∃ c, lookup e.cqe.userData st.ctxs = some c ∧
      (c.eventType = .Accept ∨ ∃ y, lookup c.buffer st.bufs = some y) := by
  by_cases hw : e.waitErr = 0
  swap
  · simp [loopBody, hw] at h
  by_cases hres : e.cqe.res < 0
  · simp [loopBody, hw, hres] at h
  refine ⟨hw, not_lt.mp hres, ?_⟩
  cases hc : lookup e.cqe.userData st.ctxs with
  | none => simp [loopBody, hw, hres, hc] at h
  | some c =>
    refine ⟨c, rfl, ?_⟩
    cases hk : c.eventType with
    | Accept => exact Or.inl rfl
    | Read =>
      cases hb : lookup c.buffer st.bufs with
      | none => simp [loopBody, hw, hres, hc, hk, caseRead, hb] at h
      | some y => exact Or.inr ⟨y, rfl⟩
    | Write =>
      cases hb : lookup c.buffer st.bufs with
      | none => simp [loopBody, hw, hres, hc, hk, caseWrite, hb] at h
      | some y => exact Or.inr ⟨y, rfl⟩

theorem inv_step (acc : EventData) (st st' : State) (e : Env) (hi : Inv acc st)
    (h : (loopBody st e).outcome = .running st') : Inv acc st' := by
  obtain ⟨hw, hres, c, hc, hb⟩ := running_step st st' e h
  cases hk : c.eventType with
  | Accept =>
    rw [loopBody_accept st e c hw hres hc hk] at h
    cases h
    exact inv_alloc acc st _ _ hi (by simp) rfl
  | Read =>
    have hkne : c.eventType ≠ .Accept := by simp [hk]
    obtain ⟨y, hy⟩ := hi.owns _ c hc hkne
    rw [loopBody_read st e c y hw hres hc hk hy] at h
    cases h
    exact inv_alloc acc _ _ _ (inv_release acc st _ c hi hc hkne) (by simp) rfl
  | Write =>
    have hkne : c.eventType ≠ .Accept := by simp [hk]
    obtain ⟨y, hy⟩ := hi.owns _ c hc hkne
    rw [loopBody_write st e c y hw hres hc hk hy] at h
    cases h
    exact inv_release acc st _ c hi hc hkne

theorem slotOk_step (st st' : State) (slot : Nat) (e : Env) (hs : SlotOk st slot)
    (h : (loopBody st (withBufferSize slot e)).outcome = .running st') :
    SlotOk st' (bufferSizeAfter st slot e) := by
  obtain ⟨hw, hres, c, hc, hb⟩ := running_step st st' _ h
  have hw' : e.waitErr = 0 := hw
  have hres' : ¬ e.cqe.res < 0 := not_lt.mpr hres
  have hc' : lookup e.cqe.userData st.ctxs = some c := hc
  cases hk : c.eventType with
  | Accept =>
    intro p d _ _
    simp [bufferSizeAfter, hw', hres', hc', hk]
  | Read =>
    have hkne : c.eventType ≠ .Accept := by simp [hk]
    have h1024 := hs _ c hc hkne
    intro p d _ _
    simp [bufferSizeAfter, hw', hres', hc', hk, h1024]
  | Write =>
    have hkne : c.eventType ≠ .Accept := by simp [hk]
    have h1024 := hs _ c hc hkne
    intro p d _ _
    simp [bufferSizeAfter, hw', hres', hc', hk, h1024]

theorem slotOk_entry (garbage : EventData) (slot : Nat) :
    SlotOk (entryState garbage) slot := by
  intro p c hp hc
  simp only [entryState, lookup_cons, lookup] at hp
  split at hp
  · cases hp; exact absurd rfl hc
  · cases hp

theorem keptEnvs_cons_running (st st' : State) (slot : Nat) (e : Env) (es : List Env)
    (h : (loopBody st (withBufferSize slot e)).outcome = .running st') :
    keptEnvs st slot (e :: es) =
      withBufferSize slot e :: keptEnvs st' (bufferSizeAfter st slot e) es := by
  simp only [keptEnvs, h]

theorem slotAfter_cons_running (st st' : State) (slot : Nat) (e : Env) (es : List Env)
    (h : (loopBody st (withBufferSize slot e)).outcome = .running st') :
    slotAfter st slot (e :: es) = slotAfter st' (bufferSizeAfter st slot e) es := by
  simp only [slotAfter, h]

theorem track_cons_running (st st' : State) (slot : Nat) (conns : List Conn) (e : Env)
    (es : List Env) (h : (loopBody st (withBufferSize slot e)).outcome = .running st') :
    track st slot conns (e :: es) =
      track st' (bufferSizeAfter st slot e) (assign st st' conns (withBufferSize slot e)) es := by
  simp only [track, h]

theorem reach_kept (acc : EventData) :
    ∀ (pre : List Env) (st st' : State) (slot : Nat), Inv acc st → SlotOk st slot →
      (runLoop st (keptEnvs st slot pre)).outcome = .running st' →
      Inv acc st' ∧ SlotOk st' (slotAfter st slot pre) := by
  intro pre
  induction pre with
  | nil =>
    intro st st' slot hi hs h
    simp only [keptEnvs, runLoop] at h
    cases h
    exact ⟨hi, hs⟩
  | cons e es ih =>
    intro st st' slot hi hs h
    cases ho : (loopBody st (withBufferSize slot e)).outcome with
    | running st1 =>
      rw [keptEnvs_cons_running st st1 slot e es ho,
        runLoop_cons_running st st1 _ _ ho] at h
      rw [slotAfter_cons_running st st1 slot e es ho]
      exact ih st1 st' _ (inv_step acc st st1 _ hi ho) (slotOk_step st st1 slot e hs ho) h
    | exited code =>
      simp only [keptEnvs, ho, runLoop] at h
      cases h
    | undefined =>
      simp only [keptEnvs, ho, runLoop] at h
      cases h

theorem ack_of_1024 : List.take 4 (strncpyBytes ackLiteral 1024) = ackPayload := by
  have h : (1024 : Nat) - 3 = 1021 := by norm_num
  simp only [strncpyBytes, ackLiteral, List.length_cons, List.length_nil, h]
  rfl

/-! ## Read completions in a run -/

/-- C4: in every run of the function, a Read-kind completion with byte count n > 0 makes
    the loop body submit exactly one write, on the client handle the read context
    carries, of length 4, from a block whose first four bytes are a, c, k and 0; the
    context attached to the write is new, of kind Write, with the same client handle.
    The state `st` is the one the run has reached, `st2` the same objects with any bytes
    in the buffers (the bytes that were read): the payload does not depend on them. The
    Read case takes the size of the write buffer from the local `bufferSize`, whose
    storage holds the 1024 that the Accept case stored when it allocated the read
    context. -/
theorem read_completion_writes_ack (garbage : EventData) (slot : Nat) (pre : List Env)
    (st st2 : State) (e : Env) (cEvent : EventData)
    (hrun : (runLoop (entryState garbage) (keptEnvs (entryState garbage) slot pre)).outcome =
      .running st)
    (hobj : st2.ctxs = st.ctxs ∧ st2.next = st.next ∧
      st2.bufs.map Prod.fst = st.bufs.map Prod.fst)
    (hw : e.waitErr = 0) (hres : 0 < e.cqe.res)
    (hctx : lookup e.cqe.userData st.ctxs = some cEvent)
    (hk : cEvent.eventType = .Read) :
    ∃ sqe st',
      (loopBody st2 (withBufferSize (slotAfter (entryState garbage) slot pre) e)).outcome =
        .running st' ∧
      submits (loopBody st2
        (withBufferSize (slotAfter (entryState garbage) slot pre) e)).trace = [sqe] ∧
      writtenHandles (loopBody st2
        (withBufferSize (slotAfter (entryState garbage) slot pre) e)).trace =
          [cEvent.clientSocket] ∧
      sqe.opcode = .write ∧ sqe.fd = cEvent.clientSocket ∧ sqe.len = 4 ∧
      payload st' sqe = some ackPayload ∧
      sqe.userData = some st.next ∧
      lookup st.next st.ctxs = none ∧
      lookup st.next st'.ctxs =
        some { eventType := .Write, buffer := st.next + 1, bufferSize := 4,
               clientSocket := cEvent.clientSocket } := by
  obtain ⟨hi, hs⟩ := reach_kept _ pre _ st slot (inv_entryState garbage)
    (slotOk_entry garbage slot) hrun
  have hkne : cEvent.eventType ≠ .Accept := by simp [hk]
  have h1024 := hs _ cEvent hctx hkne
  obtain ⟨y, hy⟩ := hi.owns _ cEvent hctx hkne
  obtain ⟨h1, h2, h3⟩ := hobj
  obtain ⟨y2, hy2⟩ := lookup_of_mem_keys cEvent.buffer st2.bufs
    (by rw [h3]; exact mem_keys_of_lookup _ _ _ hy)
  have hctx2 : lookup (withBufferSize (slotAfter (entryState garbage) slot pre) e).cqe.userData
      st2.ctxs = some cEvent := by rw [h1]; exact hctx
  rw [loopBody_read st2 (withBufferSize (slotAfter (entryState garbage) slot pre) e) cEvent y2
    hw (le_of_lt hres) hctx2 hk hy2, h2]
  refine ⟨_, _, rfl, rfl, rfl, rfl, rfl, rfl, ?_, rfl, ?_, ?_⟩
  · show (lookup (st.next + 1) ((st.next + 1, strncpyBytes ackLiteral
        (slotAfter (entryState garbage) slot pre)) :: _)).map (List.take 4) = some ackPayload
    rw [lookup_cons, if_pos rfl, h1024, Option.map_some', ack_of_1024]
  · cases hl : lookup st.next st.ctxs with
    | none => rfl
    | some d => exact absurd (hi.ctx_lt _ _ hl) (lt_irrefl _)
  · show lookup st.next ((st.next, _) :: _) = _
    rw [lookup_cons, if_pos rfl]

theorem read_completion_writes_ack_witness :
    (runLoop (entryState someGarbage)
      (keptEnvs (entryState someGarbage) 0 [completion 7 0 0 0 1])).outcome =
        .running stReading ∧
    slotAfter (entryState someGarbage) 0 [completion 7 0 0 0 1] = 1024 ∧
    (stReadingHello.ctxs = stReading.ctxs ∧ stReadingHello.next = stReading.next ∧
      stReadingHello.bufs.map Prod.fst = stReading.bufs.map Prod.fst) ∧
    (completion 5 1 1 0 1).waitErr = 0 ∧ 0 < (completion 5 1 1 0 1).cqe.res ∧
    lookup (completion 5 1 1 0 1).cqe.userData stReading.ctxs =
      some { buffer := 2, bufferSize := 1024, clientSocket := 7, eventType := .Read } ∧
    ∃ sqe st',
      (loopBody stReadingHello (withBufferSize
        (slotAfter (entryState someGarbage) 0 [completion 7 0 0 0 1])
        (completion 5 1 1 0 1))).outcome = .running st' ∧
      submits (loopBody stReadingHello (withBufferSize
        (slotAfter (entryState someGarbage) 0 [completion 7 0 0 0 1])
        (completion 5 1 1 0 1))).trace = [sqe] ∧
      writtenHandles (loopBody stReadingHello (withBufferSize
        (slotAfter (entryState someGarbage) 0 [completion 7 0 0 0 1])
        (completion 5 1 1 0 1))).trace = [7] ∧
      sqe.opcode = .write ∧ sqe.fd = 7 ∧ sqe.len = 4 ∧
      payload st' sqe = some ackPayload ∧
      sqe.userData = some stReading.next ∧
      lookup stReading.next stReading.ctxs = none ∧
      lookup stReading.next st'.ctxs =
        some { eventType := .Write, buffer := stReading.next + 1, bufferSize := 4,
               clientSocket := 7 } :=
  ⟨rfl, rfl, ⟨rfl, rfl, rfl⟩, rfl, by decide, rfl,
    read_completion_writes_ack someGarbage 0 [completion 7 0 0 0 1] stReading stReadingHello
      (completion 5 1 1 0 1)
      { buffer := 2, bufferSize := 1024, clientSocket := 7, eventType := .Read }
      rfl ⟨rfl, rfl, rfl⟩ rfl (by decide) rfl rfl⟩


/-! ## Connections in a run -/

theorem assign_accept (st : State) (conns : List Conn) (e : Env) (c : EventData)
    (hw : e.waitErr = 0) (hres : 0 ≤ e.cqe.res)
    (hc : lookup e.cqe.userData st.ctxs = some c) (hk : c.eventType = .Accept)
    (st' : State) :
    assign st st' conns e =
      conns ++ [{ handle := e.cqe.res, ctx := some st.next, writes := [], closed := [] }] := by
  simp only [assign, hc, hk, loopBody_accept st e c hw hres hc hk]
  rfl

theorem assign_read (st : State) (conns : List Conn) (e : Env) (c : EventData)
    (y : List (Option Nat)) (hw : e.waitErr = 0) (hres : 0 ≤ e.cqe.res)
    (hc : lookup e.cqe.userData st.ctxs = some c) (hk : c.eventType = .Read)
    (hy : lookup c.buffer st.bufs = some y) (st' : State) :
    assign st st' conns e =
      conns.map (fun k =>
        if k.ctx = some e.cqe.userData then
          { handle := k.handle, ctx := some st.next,
            writes := k.writes ++
              [({ opcode := .write, fd := c.clientSocket, addr := some (st.next + 1),
                  len := 4, off := 0, flags := e.uninit.sQueueFlags ||| IOSQE_FIXED_FILE,
                  userData := some st.next },
                (lookup (st.next + 1) st'.bufs).map (List.take 4))],
            closed := k.closed }
        else k) := by
  simp only [assign, hc, hk, loopBody_read st e c y hw hres hc hk hy]
  simp [submittedCtx, submits, writesOf, closes, payload]

theorem assign_write (st : State) (conns : List Conn) (e : Env) (c : EventData)
    (y : List (Option Nat)) (hw : e.waitErr = 0) (hres : 0 ≤ e.cqe.res)
    (hc : lookup e.cqe.userData st.ctxs = some c) (hk : c.eventType = .Write)
    (hy : lookup c.buffer st.bufs = some y) (st' : State) :
    assign st st' conns e =
      conns.map (fun k =>
        if k.ctx = some e.cqe.userData then
          { handle := k.handle, ctx := none, writes := k.writes,
            closed := k.closed ++ [c.clientSocket] }
        else k) := by
  simp only [assign, hc, hk, loopBody_write st e c y hw hres hc hk hy]
  simp [submittedCtx, submits, writesOf, closes]

theorem conn_addr_lt (acc : EventData) (st : State) (k : Conn) (hi : Inv acc st)
    (h : ConnOk st k) : ∀ w ∈ k.writes, ∃ b, w.1.addr = some b ∧ b < st.next := by
  rcases h with ⟨p, c, _, _, _, _, hw, _⟩ | ⟨p, c, w, _, hc, hk, _, hw, hg, _⟩ |
    ⟨w, b, _, hw, hg, hb, _⟩
  · intro v hv
    rw [hw] at hv
    cases hv
  · intro v hv
    rw [hw] at hv
    simp only [List.mem_singleton] at hv
    subst hv
    obtain ⟨y, hy⟩ := hi.owns p c hc (by simp [hk])
    exact ⟨c.buffer, hg.2.2.2, hi.buf_lt _ _ hy⟩
  · intro v hv
    rw [hw] at hv
    simp only [List.mem_singleton] at hv
    subst hv
    exact ⟨b, hg.2.2.2, hb⟩

theorem conn_ctx_live (st : State) (k : Conn) (q : Nat) (h : ConnOk st k)
    (hq : k.ctx = some q) : ∃ c, lookup q st.ctxs = some c := by
  rcases h with ⟨p, c, hp, hc, _⟩ | ⟨p, c, w, hp, hc, _⟩ | ⟨w, b, hp, _⟩
  · rw [hp] at hq; cases hq; exact ⟨c, hc⟩
  · rw [hp] at hq; cases hq; exact ⟨c, hc⟩
  · rw [hp] at hq; cases hq

theorem connOk_alloc (acc : EventData) (st : State) (ev : EventData) (x : List (Option Nat))
    (k : Conn) (hi : Inv acc st) (h : ConnOk st k) :
    ConnOk { ctxs := (st.next, ev) :: st.ctxs, bufs := (st.next + 1, x) :: st.bufs,
             next := st.next + 2 } k := by
  have keep : ∀ p c, lookup p st.ctxs = some c →
      lookup p ((st.next, ev) :: st.ctxs) = some c := by
    intro p c hc
    have := hi.ctx_lt _ _ hc
    rw [lookup_cons, if_neg (by omega)]; exact hc
  rcases h with ⟨p, c, hp, hc, h3⟩ | ⟨p, c, w, hp, hc, h3⟩ | ⟨w, b, hp, hw, hg, hb, h3⟩
  · exact Or.inl ⟨p, c, hp, keep p c hc, h3⟩
  · exact Or.inr (Or.inl ⟨p, c, w, hp, keep p c hc, h3⟩)
  · exact Or.inr (Or.inr ⟨w, b, hp, hw, hg, Nat.lt_add_right 2 hb, h3⟩)

theorem connOk_release (st : State) (p : Nat) (b : Nat) (k : Conn) (h : ConnOk st k)
    (hne : k.ctx ≠ some p) :
    ConnOk { ctxs := remove p st.ctxs, bufs := remove b st.bufs, next := st.next } k := by
  rcases h with ⟨q, c, hq, hc, h3⟩ | ⟨q, c, w, hq, hc, h3⟩ | h
  · have hqp : q ≠ p := fun he => hne (by rw [hq, he])
    exact Or.inl ⟨q, c, hq, by
      show lookup q (remove p st.ctxs) = some c
      rw [lookup_remove_ne _ _ _ hqp]; exact hc, h3⟩
  · have hqp : q ≠ p := fun he => hne (by rw [hq, he])
    exact Or.inr (Or.inl ⟨q, c, w, hq, by
      show lookup q (remove p st.ctxs) = some c
      rw [lookup_remove_ne _ _ _ hqp]; exact hc, h3⟩)
  · exact Or.inr (Or.inr h)

theorem sum_map_update (f : Conn → Nat) (g : Conn → Conn) (P : Conn → Prop)
    [DecidablePred P] (n : Nat) (hg : ∀ k, P k → f (g k) = f k + n) :
    ∀ (l : List Conn), (∃ k ∈ l, P k) → l.Pairwise (fun a b => ¬ (P a ∧ P b)) →
      ((l.map (fun k => if P k then g k else k)).map f).sum = (l.map f).sum + n := by
  intro l
  induction l with
  | nil => intro ⟨k, hk, _⟩; cases hk
  | cons a t ih =>
    intro hex hpw
    rw [List.pairwise_cons] at hpw
    by_cases ha : P a
    · have hid : t.map (fun k => if P k then g k else k) = t := by
        conv_rhs => rw [← List.map_id t]
        apply List.map_congr_left
        intro k hk
        have : ¬ P k := fun hk' => hpw.1 k hk ⟨ha, hk'⟩
        simp [this]
      simp only [List.map_cons, List.sum_cons, if_pos ha, hid, hg a ha]
      omega
    · obtain ⟨k, hk, hPk⟩ := hex
      have hk' : k ∈ t := by
        rcases List.mem_cons.mp hk with h | h
        · subst h; exact absurd hPk ha
        · exact h
      have := ih ⟨k, hk', hPk⟩ hpw.2
      simp only [List.map_cons, List.sum_cons, if_neg ha, this]
      omega


theorem apart_not_both (a b : Conn) (p : Nat) (h : Apart a b) :
    ¬ (a.ctx = some p ∧ b.ctx = some p) := by
  intro ⟨ha, hb⟩
  rcases h.1 with h1 | h1
  · rw [ha] at h1; cases h1
  · exact h1 (by rw [ha, hb])

theorem connsInv_accept (acc : EventData) (st : State) (conns : List Conn) (res : Int)
    (x : List (Option Nat)) (hi : Inv acc st) (h : ConnsInv st conns) :
    ConnsInv
      { ctxs := (st.next, { eventType := .Read, buffer := st.next + 1, bufferSize := 1024,
                            clientSocket := res }) :: st.ctxs,
        bufs := (st.next + 1, x) :: st.bufs, next := st.next + 2 }
      (conns ++ [{ handle := res, ctx := some st.next, writes := [], closed := [] }]) where
  ok := by
    intro k hk
    rcases List.mem_append.mp hk with hk | hk
    · exact connOk_alloc acc st _ _ k hi (h.ok k hk)
    · simp only [List.mem_singleton] at hk
      subst hk
      have hl : lookup st.next ((st.next, (⟨st.next + 1, 1024, res, .Read⟩ : EventData)) ::
          st.ctxs) = some ⟨st.next + 1, 1024, res, .Read⟩ := by simp [lookup_cons]
      exact Or.inl ⟨st.next, ⟨st.next + 1, 1024, res, .Read⟩, rfl, hl, rfl, rfl, rfl, rfl⟩
  apart := by
    rw [List.pairwise_append]
    refine ⟨h.apart, List.pairwise_singleton _ _, ?_⟩
    intro a ha b hb
    simp only [List.mem_singleton] at hb
    subst hb
    refine ⟨?_, fun w _ v hv => by cases hv⟩
    cases hq : a.ctx with
    | none => exact Or.inl rfl
    | some q =>
      right
      obtain ⟨c, hc⟩ := conn_ctx_live st a q (h.ok a ha) hq
      have := hi.ctx_lt _ _ hc
      intro he
      have := Option.some.inj he
      omega
  owned := by
    intro p c hp hc
    simp only [lookup_cons] at hp
    split at hp
    · rename_i hn
      exact ⟨_, List.mem_append_right _ (List.mem_singleton_self _), by rw [hn]⟩
    · obtain ⟨k, hk, hkp⟩ := h.owned p c hp hc
      exact ⟨k, List.mem_append_left _ hk, hkp⟩

theorem connsInv_read (acc : EventData) (st : State) (conns : List Conn) (p : Nat)
    (c : EventData) (flags : Nat) (hi : Inv acc st) (h : ConnsInv st conns)
    (hc : lookup p st.ctxs = some c) (hk : c.eventType = .Read) :
    ConnsInv
      { ctxs := (st.next, { eventType := .Write, buffer := st.next + 1, bufferSize := 4,
                            clientSocket := c.clientSocket }) :: remove p st.ctxs,
        bufs := (st.next + 1, strncpyBytes ackLiteral 1024) :: remove c.buffer st.bufs,
        next := st.next + 2 }
      (conns.map (fun k =>
        if k.ctx = some p then
          { handle := k.handle, ctx := some st.next,
            writes := k.writes ++
              [({ opcode := .write, fd := c.clientSocket, addr := some (st.next + 1),
                  len := 4, off := 0, flags := flags, userData := some st.next },
                some ackPayload)],
            closed := k.closed }
        else k)) where
  ok := by
    have hkne : c.eventType ≠ .Accept := by simp [hk]
    have hrel := inv_release acc st p c hi hc hkne
    intro k' hk'
    obtain ⟨k, hkm, hfk⟩ := List.mem_map.mp hk'
    by_cases hp : k.ctx = some p
    · rw [if_pos hp] at hfk
      subst hfk
      rcases h.ok k hkm with ⟨q, d, hq, hd, _, hh, hw, hcl⟩ | ⟨q, d, w, hq, hd, hdk, _⟩ |
        ⟨w, b, hq, _⟩
      · rw [hp] at hq; cases hq
        rw [hc] at hd; cases hd
        have hl : lookup st.next
            ((st.next, (⟨st.next + 1, 4, c.clientSocket, .Write⟩ : EventData)) ::
              remove p st.ctxs) = some ⟨st.next + 1, 4, c.clientSocket, .Write⟩ := by
          simp [lookup_cons]
        refine Or.inr (Or.inl ⟨st.next, ⟨st.next + 1, 4, c.clientSocket, .Write⟩,
          ⟨.write, c.clientSocket, some (st.next + 1), 4, 0, flags, some st.next⟩,
          rfl, hl, rfl, hh, ?_, ⟨rfl, hh, rfl, rfl⟩, hcl⟩)
        show k.writes ++ _ = _
        rw [hw]; rfl
      · rw [hp] at hq; cases hq
        rw [hc] at hd; cases hd
        rw [hk] at hdk; cases hdk
      · rw [hp] at hq; cases hq
    · rw [if_neg hp] at hfk
      subst hfk
      exact connOk_alloc acc _ _ _ k hrel (connOk_release st p c.buffer k (h.ok k hkm) hp)
  apart := by
    rw [List.pairwise_map]
    refine h.apart.imp_of_mem ?_
    intro a b ha hb hab
    have la := conn_addr_lt acc st a hi (h.ok a ha)
    have lb := conn_addr_lt acc st b hi (h.ok b hb)
    have ca : ∀ q, a.ctx = some q → q < st.next := fun q hq =>
      (conn_ctx_live st a q (h.ok a ha) hq).elim fun d hd => hi.ctx_lt _ _ hd
    have cb : ∀ q, b.ctx = some q → q < st.next := fun q hq =>
      (conn_ctx_live st b q (h.ok b hb) hq).elim fun d hd => hi.ctx_lt _ _ hd
    have hnb := apart_not_both a b p hab
    by_cases hpa : a.ctx = some p
    · have hpb : b.ctx ≠ some p := fun hb' => hnb ⟨hpa, hb'⟩
      rw [if_pos hpa, if_neg hpb]
      refine ⟨Or.inr ?_, ?_⟩
      · show some st.next ≠ b.ctx
        intro he
        have := cb st.next he.symm
        omega
      · intro w hw v hv
        rcases List.mem_append.mp hw with hw | hw
        · exact hab.2 w hw v hv
        · simp only [List.mem_singleton] at hw
          subst hw
          obtain ⟨x, hx, hlt⟩ := lb v hv
          show some (st.next + 1) ≠ v.1.addr
          rw [hx]
          intro he
          have := Option.some.inj he
          omega
    · rw [if_neg hpa]
      by_cases hpb : b.ctx = some p
      · rw [if_pos hpb]
        refine ⟨?_, ?_⟩
        · cases hq : a.ctx with
          | none => exact Or.inl rfl
          | some q =>
            right
            show some q ≠ some st.next
            intro he
            have := ca q hq
            have := Option.some.inj he
            omega
        · intro w hw v hv
          rcases List.mem_append.mp hv with hv | hv
          · exact hab.2 w hw v hv
          · simp only [List.mem_singleton] at hv
            subst hv
            obtain ⟨x, hx, hlt⟩ := la w hw
            show w.1.addr ≠ some (st.next + 1)
            rw [hx]
            intro he
            have := Option.some.inj he
            omega
      · rw [if_neg hpb]
        exact hab
  owned := by
    intro q d hq hd
    simp only [lookup_cons] at hq
    split at hq
    · rename_i hn
      obtain ⟨k, hkm, hkp⟩ := h.owned p c hc (by simp [hk])
      refine ⟨_, List.mem_map.mpr ⟨k, hkm, rfl⟩, ?_⟩
      rw [if_pos hkp, hn]
    · obtain ⟨hne, hq'⟩ := lookup_remove_some _ _ _ _ hq
      obtain ⟨k, hkm, hkp⟩ := h.owned q d hq' hd
      have hkp' : k.ctx ≠ some p := by
        rw [hkp]
        intro he
        exact hne (Option.some.inj he)
      refine ⟨_, List.mem_map.mpr ⟨k, hkm, rfl⟩, ?_⟩
      rw [if_neg hkp']
      exact hkp

theorem connsInv_write (acc : EventData) (st : State) (conns : List Conn) (p : Nat)
    (c : EventData) (hi : Inv acc st) (h : ConnsInv st conns)
    (hc : lookup p st.ctxs = some c) (hk : c.eventType = .Write) :
    ConnsInv
      { ctxs := remove p st.ctxs, bufs := remove c.buffer st.bufs, next := st.next }
      (conns.map (fun k =>
        if k.ctx = some p then
          { handle := k.handle, ctx := none, writes := k.writes,
            closed := k.closed ++ [c.clientSocket] }
        else k)) where
  ok := by
    have hkne : c.eventType ≠ .Accept := by simp [hk]
    intro k' hk'
    obtain ⟨k, hkm, hfk⟩ := List.mem_map.mp hk'
    by_cases hp : k.ctx = some p
    · rw [if_pos hp] at hfk
      subst hfk
      rcases h.ok k hkm with ⟨q, d, hq, hd, hdk, _⟩ | ⟨q, d, w, hq, hd, _, hh, hw, hg, hcl⟩ |
        ⟨w, b, hq, _⟩
      · rw [hp] at hq; cases hq
        rw [hc] at hd; cases hd
        rw [hk] at hdk; cases hdk
      · rw [hp] at hq; cases hq
        rw [hc] at hd; cases hd
        obtain ⟨y, hy⟩ := hi.owns _ _ hc hkne
        refine Or.inr (Or.inr ⟨w, c.buffer, rfl, hw, hg, hi.buf_lt _ _ hy, ?_⟩)
        show k.closed ++ [c.clientSocket] = [k.handle]
        rw [hcl, hh]; rfl
      · rw [hp] at hq; cases hq
    · rw [if_neg hp] at hfk
      subst hfk
      exact connOk_release st p c.buffer k (h.ok k hkm) hp
  apart := by
    rw [List.pairwise_map]
    refine h.apart.imp_of_mem ?_
    intro a b ha hb hab
    have hnb := apart_not_both a b p hab
    by_cases hpa : a.ctx = some p
    · have hpb : b.ctx ≠ some p := fun hb' => hnb ⟨hpa, hb'⟩
      rw [if_pos hpa, if_neg hpb]
      exact ⟨Or.inl rfl, hab.2⟩
    · rw [if_neg hpa]
      by_cases hpb : b.ctx = some p
      · rw [if_pos hpb]
        refine ⟨?_, hab.2⟩
        cases hq : a.ctx with
        | none => exact Or.inl rfl
        | some q =>
          right
          show some q ≠ none
          intro he; cases he
      · rw [if_neg hpb]
        exact hab
  owned := by
    intro q d hq hd
    obtain ⟨hne, hq'⟩ := lookup_remove_some _ _ _ _ hq
    obtain ⟨k, hkm, hkp⟩ := h.owned q d hq' hd
    have hkp' : k.ctx ≠ some p := by
      rw [hkp]
      intro he
      exact hne (Option.some.inj he)
    refine ⟨_, List.mem_map.mpr ⟨k, hkm, rfl⟩, ?_⟩
    rw [if_neg hkp']
    exact hkp


theorem withBufferSize_bufferSize (slot : Nat) (e : Env) :
    (withBufferSize slot e).uninit.bufferSize = slot := rfl

theorem withBufferSize_flags (slot : Nat) (e : Env) :
    (withBufferSize slot e).uninit.sQueueFlags = e.uninit.sQueueFlags := rfl

theorem withBufferSize_cqe (slot : Nat) (e : Env) : (withBufferSize slot e).cqe = e.cqe := rfl

theorem withBufferSize_submitRet (slot : Nat) (e : Env) :
    (withBufferSize slot e).submitRet = e.submitRet := rfl

theorem conn_step (acc : EventData) (st st' : State) (slot : Nat) (conns : List Conn)
    (e : Env) (hi : Inv acc st) (hs : SlotOk st slot) (h : ConnsInv st conns)
    (ho : (loopBody st (withBufferSize slot e)).outcome = .running st') :
    ConnsInv st' (assign st st' conns (withBufferSize slot e)) ∧
    (assign st st' conns (withBufferSize slot e)).map (fun k => k.handle) =
      conns.map (fun k => k.handle) ++
        acceptedHandles (loopBody st (withBufferSize slot e)).trace ∧
    ((assign st st' conns (withBufferSize slot e)).map (fun k => k.writes.length)).sum =
      (conns.map (fun k => k.writes.length)).sum +
        (writtenHandles (loopBody st (withBufferSize slot e)).trace).length ∧
    ((assign st st' conns (withBufferSize slot e)).map (fun k => k.closed.length)).sum =
      (conns.map (fun k => k.closed.length)).sum +
        (closes (loopBody st (withBufferSize slot e)).trace).length := by
  obtain ⟨hw, hres, c, hc, _⟩ := running_step st st' _ ho
  cases hk : c.eventType with
  | Accept =>
    have hstep := loopBody_accept st (withBufferSize slot e) c hw hres hc hk
    rw [hstep] at ho
    cases ho
    rw [assign_accept st conns (withBufferSize slot e) c hw hres hc hk, hstep]
    refine ⟨connsInv_accept acc st conns _ _ hi h, ?_, ?_, ?_⟩
    · simp only [List.map_append, List.map_cons, List.map_nil]
      rfl
    · simp only [List.map_append, List.map_cons, List.map_nil, List.sum_append,
        List.sum_cons, List.sum_nil, List.length_nil]
      rfl
    · simp only [List.map_append, List.map_cons, List.map_nil, List.sum_append,
        List.sum_cons, List.sum_nil, List.length_nil]
      rfl
  | Read =>
    have hkne : c.eventType ≠ .Accept := by simp [hk]
    obtain ⟨y, hy⟩ := hi.owns _ c hc hkne
    have h1024 := hs _ c hc hkne
    subst h1024
    have hstep := loopBody_read st (withBufferSize 1024 e) c y hw hres hc hk hy
    rw [hstep] at ho
    cases ho
    rw [assign_read st conns (withBufferSize 1024 e) c y hw hres hc hk hy, hstep]
    simp only [withBufferSize_bufferSize, withBufferSize_flags, withBufferSize_cqe,
      lookup_cons, if_true, Option.map_some', ack_of_1024]
    obtain ⟨k0, hk0, hk0p⟩ := h.owned _ c hc hkne
    have hpw : conns.Pairwise (fun a b =>
        ¬ (a.ctx = some e.cqe.userData ∧ b.ctx = some e.cqe.userData)) :=
      h.apart.imp (fun hab => apart_not_both _ _ _ hab)
    refine ⟨connsInv_read acc st conns _ c _ hi h hc hk, ?_, ?_, ?_⟩
    · show List.map _ (List.map _ conns) = List.map _ conns ++ []
      rw [List.append_nil, List.map_map]
      apply List.map_congr_left
      intro k _
      by_cases hkp : k.ctx = some e.cqe.userData
      · simp [hkp]
      · simp [hkp]
    · exact sum_map_update (fun k => k.writes.length) _ (fun k => k.ctx = some e.cqe.userData)
        1 (fun k _ => by simp) conns ⟨k0, hk0, hk0p⟩ hpw
    · rw [List.map_map]
      show (conns.map _).sum = (conns.map _).sum + 0
      rw [Nat.add_zero]
      congr 1
      apply List.map_congr_left
      intro k _
      by_cases hkp : k.ctx = some e.cqe.userData
      · simp [hkp]
      · simp [hkp]
  | Write =>
    have hkne : c.eventType ≠ .Accept := by simp [hk]
    obtain ⟨y, hy⟩ := hi.owns _ c hc hkne
    have hstep := loopBody_write st (withBufferSize slot e) c y hw hres hc hk hy
    rw [hstep] at ho
    cases ho
    rw [assign_write st conns (withBufferSize slot e) c y hw hres hc hk hy, hstep]
    simp only [withBufferSize_cqe]
    obtain ⟨k0, hk0, hk0p⟩ := h.owned _ c hc hkne
    have hpw : conns.Pairwise (fun a b =>
        ¬ (a.ctx = some e.cqe.userData ∧ b.ctx = some e.cqe.userData)) :=
      h.apart.imp (fun hab => apart_not_both _ _ _ hab)
    refine ⟨connsInv_write acc st conns _ c hi h hc hk, ?_, ?_, ?_⟩
    · show List.map _ (List.map _ conns) = List.map _ conns ++ []
      rw [List.append_nil, List.map_map]
      apply List.map_congr_left
      intro k _
      by_cases hkp : k.ctx = some e.cqe.userData
      · simp [hkp]
      · simp [hkp]
    · rw [List.map_map]
      show (conns.map _).sum = (conns.map _).sum + 0
      rw [Nat.add_zero]
      congr 1
      apply List.map_congr_left
      intro k _
      by_cases hkp : k.ctx = some e.cqe.userData
      · simp [hkp]
      · simp [hkp]
    · exact sum_map_update (fun k => k.closed.length) _ (fun k => k.ctx = some e.cqe.userData)
        1 (fun k _ => by simp) conns ⟨k0, hk0, hk0p⟩ hpw


theorem conn_run (acc : EventData) :
    ∀ (envs : List Env) (st : State) (slot : Nat) (infl : List Sqe) (freed : List Nat)
      (conns : List Conn),
      Inv acc st → InflOk infl st → FreedOk freed st → SlotOk st slot → ConnsInv st conns →
      ringDelivers infl st (keptEnvs st slot envs) = true →
      ∃ st',
        (runLoop st (keptEnvs st slot envs)).outcome = .running st' ∧
        ConnsInv st' (track st slot conns envs) ∧
        (track st slot conns envs).map (fun k => k.handle) =
          conns.map (fun k => k.handle) ++
            acceptedHandles (runLoop st (keptEnvs st slot envs)).trace ∧
        ((track st slot conns envs).map (fun k => k.writes.length)).sum =
          (conns.map (fun k => k.writes.length)).sum +
            (writtenHandles (runLoop st (keptEnvs st slot envs)).trace).length ∧
        ((track st slot conns envs).map (fun k => k.closed.length)).sum =
          (conns.map (fun k => k.closed.length)).sum +
            (closes (runLoop st (keptEnvs st slot envs)).trace).length := by
  intro envs
  induction envs with
  | nil =>
    intro st slot infl freed conns _ _ _ _ hc _
    refine ⟨st, rfl, hc, ?_, ?_, ?_⟩
    · simp [track, keptEnvs, runLoop, acceptedHandles]
    · simp [track, keptEnvs, runLoop, writtenHandles]
    · simp [track, keptEnvs, runLoop, closes]
  | cons e es ih =>
    intro st slot infl freed conns hi hf hr hs hc hd
    have hd0 := hd
    simp only [keptEnvs] at hd0
    obtain ⟨hw, hres, hfl⟩ := ringDelivers_head infl st _ _ hd0
    obtain ⟨st1, c, hout, _, hi1, hf1, hr1, _⟩ :=
      step_ok acc st infl freed (withBufferSize slot e) hi hf hr hw hres hfl
    rw [keptEnvs_cons_running st st1 slot e es hout] at hd ⊢
    have hd1 := (ringDelivers_cons infl st st1 _ _ hd hout).2.2.2
    obtain ⟨hc1, hh1, hw1, hcl1⟩ := conn_step acc st st1 slot conns e hi hs hc hout
    have hs1 := slotOk_step st st1 slot e hs hout
    obtain ⟨st2, hout2, hc2, hh2, hw2, hcl2⟩ := ih st1 _ _ _ _ hi1 hf1 hr1 hs1 hc1 hd1
    rw [runLoop_cons_running st st1 _ _ hout, track_cons_running st st1 slot conns e es hout]
    refine ⟨st2, hout2, hc2, ?_, ?_, ?_⟩
    · rw [hh2, hh1, acceptedHandles_append, List.append_assoc]
    · rw [hw2, hw1, writtenHandles_append, List.length_append]
      omega
    · rw [hcl2, hcl1, closes_append, List.length_append]
      omega

theorem acceptedHandles_length (t : List Action) :
    (acceptedHandles t).length = readsPrepared t := by
  induction t with
  | nil => rfl
  | cons a t ih => cases a <;> simp [acceptedHandles, readsPrepared, ih]

theorem all_one_of_sum (f : Conn → Nat) :
    ∀ (l : List Conn), (∀ k ∈ l, f k ≤ 1) → (l.map f).sum = l.length → ∀ k ∈ l, f k = 1 := by
  intro l
  induction l with
  | nil => intro _ _ k hk; cases hk
  | cons a t ih =>
    intro hle hsum k hk
    simp only [List.map_cons, List.sum_cons, List.length_cons] at hsum
    have ha := hle a (List.mem_cons_self _ _)
    have ht : (t.map f).sum ≤ t.length := by
      clear ih hsum hk
      induction t with
      | nil => simp
      | cons b u ihu =>
        have hb := hle b (List.mem_cons_of_mem _ (List.mem_cons_self _ _))
        have := ihu (fun k hk => by
          rcases List.mem_cons.mp hk with h | h
          · subst h; exact ha
          · exact hle k (List.mem_cons_of_mem _ (List.mem_cons_of_mem _ h)))
        simp only [List.map_cons, List.sum_cons, List.length_cons]
        omega
    rcases List.mem_cons.mp hk with h | h
    · subst h; omega
    · exact ih (fun k hk => hle k (List.mem_cons_of_mem _ hk)) (by omega) k h

theorem connsInv_nil (st : State) (h : ∀ p c, lookup p st.ctxs = some c → c.eventType = .Accept) :
    ConnsInv st [] where
  ok := by intro k hk; cases hk
  apart := List.Pairwise.nil
  owned := by
    intro p c hp hc
    exact absurd (h p c hp) hc

/-! ## Every connection, in every interleaving -/

/-- C1: for every number of client connections and every interleaving of their
    completions (the ring delivers non-negative completions of entries in flight, so
    each connection's come in the order accept, read, write), the loop keeps running
    and, with the connections followed by `track`:
    * the connections are the accept completions, each with the handle delivered, and
      every write and every close of the run is made while handling a completion of
      exactly one of them;
    * a connection whose read is in flight has no write and no close; a connection whose
      write is in flight has exactly one write, a write of the 4 bytes a, c, k, 0 on its
      own handle from the buffer of its own context, and no close; a connection with no
      operation in flight had its write completion handled: it has that one write, and
      its own handle was closed exactly once, in that iteration;
    * the writes of two connections never use the same buffer;
    * once as many write completions as accept completions are handled, every
      connection has had its write and its close. -/
theorem each_connection_acked_and_closed_once (serverSocket : Int) (garbage : EventData)
    (slot : Nat) (envs : List Env)
    (hring : ringDelivers [acceptEntry serverSocket] (entryState garbage)
      (keptEnvs (entryState garbage) slot envs) = true) :
    ∃ st,
      (startEventLoop serverSocket garbage 1
        (keptEnvs (entryState garbage) slot envs)).outcome = .running st ∧
      (track (entryState garbage) slot [] envs).map (fun k => k.handle) =
        acceptedHandles (startEventLoop serverSocket garbage 1
          (keptEnvs (entryState garbage) slot envs)).trace ∧
      ((track (entryState garbage) slot [] envs).map (fun k => k.writes.length)).sum =
        (writtenHandles (startEventLoop serverSocket garbage 1
          (keptEnvs (entryState garbage) slot envs)).trace).length ∧
      ((track (entryState garbage) slot [] envs).map (fun k => k.closed.length)).sum =
        (closes (startEventLoop serverSocket garbage 1
          (keptEnvs (entryState garbage) slot envs)).trace).length ∧
      (∀ k ∈ track (entryState garbage) slot [] envs,
        (∃ p c, k.ctx = some p ∧ lookup p st.ctxs = some c ∧ c.eventType = .Read ∧
          c.clientSocket = k.handle ∧ k.writes = [] ∧ k.closed = []) ∨
        (∃ p c w, k.ctx = some p ∧ lookup p st.ctxs = some c ∧ c.eventType = .Write ∧
          c.clientSocket = k.handle ∧ k.writes = [(w, some ackPayload)] ∧
          w.opcode = .write ∧ w.fd = k.handle ∧ w.len = 4 ∧ w.addr = some c.buffer ∧
          k.closed = []) ∨
        (∃ w, k.ctx = none ∧ k.writes = [(w, some ackPayload)] ∧
          w.opcode = .write ∧ w.fd = k.handle ∧ w.len = 4 ∧ k.closed = [k.handle])) ∧
      (track (entryState garbage) slot [] envs).Pairwise
        (fun a b => ∀ w ∈ a.writes, ∀ v ∈ b.writes, w.1.addr ≠ v.1.addr) ∧
      ((closes (startEventLoop serverSocket garbage 1
          (keptEnvs (entryState garbage) slot envs)).trace).length =
        readsPrepared (startEventLoop serverSocket garbage 1
          (keptEnvs (entryState garbage) slot envs)).trace →
        ∀ k ∈ track (entryState garbage) slot [] envs,
          k.ctx = none ∧ k.closed = [k.handle]) := by
  have hi0 := inv_entryState garbage
  have hc0 : ConnsInv (entryState garbage) [] := connsInv_nil _ (by
    intro p c hp
    simp only [entryState, lookup_cons, lookup] at hp
    split at hp
    · cases hp; rfl
    · cases hp)
  obtain ⟨st, hout, hc, hh, hw, hcl⟩ := conn_run _ envs _ slot _ _ [] hi0
    (inflOk_entry serverSocket garbage) (freedOk_nil _) (slotOk_entry garbage slot) hc0 hring
  rw [startEventLoop_ok, acceptedHandles_append, writtenHandles_append, closes_append,
    readsPrepared_append]
  have e1 : acceptedHandles [Action.getSqe, .prepAccept serverSocket,
      .store acceptEventAddr, .setData acceptEventAddr,
      .submit (acceptEntry serverSocket) 1] = [] := rfl
  have e2 : writtenHandles [Action.getSqe, .prepAccept serverSocket,
      .store acceptEventAddr, .setData acceptEventAddr,
      .submit (acceptEntry serverSocket) 1] = [] := rfl
  have e3 : closes [Action.getSqe, .prepAccept serverSocket,
      .store acceptEventAddr, .setData acceptEventAddr,
      .submit (acceptEntry serverSocket) 1] = [] := rfl
  have e4 : readsPrepared [Action.getSqe, .prepAccept serverSocket,
      .store acceptEventAddr, .setData acceptEventAddr,
      .submit (acceptEntry serverSocket) 1] = 0 := rfl
  rw [e1, e2, e3, e4]
  simp only [List.nil_append, List.map_nil, List.sum_nil, Nat.zero_add] at hh hw hcl ⊢
  have hphase : ∀ k ∈ track (entryState garbage) slot [] envs,
      (∃ p c, k.ctx = some p ∧ lookup p st.ctxs = some c ∧ c.eventType = .Read ∧
        c.clientSocket = k.handle ∧ k.writes = [] ∧ k.closed = []) ∨
      (∃ p c w, k.ctx = some p ∧ lookup p st.ctxs = some c ∧ c.eventType = .Write ∧
        c.clientSocket = k.handle ∧ k.writes = [(w, some ackPayload)] ∧
        w.opcode = .write ∧ w.fd = k.handle ∧ w.len = 4 ∧ w.addr = some c.buffer ∧
        k.closed = []) ∨
      (∃ w, k.ctx = none ∧ k.writes = [(w, some ackPayload)] ∧
        w.opcode = .write ∧ w.fd = k.handle ∧ w.len = 4 ∧ k.closed = [k.handle]) := by
    intro k hk
    rcases hc.ok k hk with h1 | ⟨p, c, w, hp, hl, hkd, hh1, hkw, hg, hkc⟩ |
      ⟨w, b, hp, hkw, hg, _, hkc⟩
    · exact Or.inl h1
    · exact Or.inr (Or.inl ⟨p, c, w, hp, hl, hkd, hh1, hkw, hg.1, hg.2.1, hg.2.2.1,
        hg.2.2.2, hkc⟩)
    · exact Or.inr (Or.inr ⟨w, hp, hkw, hg.1, hg.2.1, hg.2.2.1, hkc⟩)
  refine ⟨st, hout, hh, hw, hcl, hphase, hc.apart.imp (fun hab => hab.2), ?_⟩
  intro hq
  have hlen : (track (entryState garbage) slot [] envs).length =
      readsPrepared (runLoop (entryState garbage)
        (keptEnvs (entryState garbage) slot envs)).trace := by
    rw [← acceptedHandles_length, ← hh, List.length_map]
  have hle : ∀ k ∈ track (entryState garbage) slot [] envs, k.closed.length ≤ 1 := by
    intro k hk
    rcases hphase k hk with ⟨_, _, _, _, _, _, _, h0⟩ |
      ⟨_, _, _, _, _, _, _, _, _, _, _, _, h0⟩ | ⟨_, _, _, _, _, _, h1⟩
    · simp [h0]
    · simp [h0]
    · simp [h1]
  have hone := all_one_of_sum (fun k => k.closed.length) _ hle (by rw [hcl, hlen, hq])
  intro k hk
  have h1 : k.closed.length = 1 := hone k hk
  rcases hphase k hk with ⟨_, _, _, _, _, _, _, h0⟩ |
    ⟨_, _, _, _, _, _, _, _, _, _, _, _, h0⟩ | ⟨_, h2, _, _, _, _, h3⟩
  · rw [h0] at h1; cases h1
  · rw [h0] at h1; cases h1
  · exact ⟨h2, h3⟩

theorem each_connection_acked_and_closed_once_witness :
    ringDelivers [acceptEntry 3] (entryState someGarbage)
      (keptEnvs (entryState someGarbage) 0 twoConnections) = true ∧
    track (entryState someGarbage) 0 [] twoConnections =
      [ { handle := 7, ctx := none,
          writes := [({ opcode := .write, fd := 7, addr := some 8, len := 4, off := 0,
                        flags := 1, userData := some 7 }, some ackPayload)],
          closed := [7] },
        { handle := 8, ctx := none,
          writes := [({ opcode := .write, fd := 8, addr := some 6, len := 4, off := 0,
                        flags := 1, userData := some 5 }, some ackPayload)],
          closed := [8] } ] ∧
    (track (entryState someGarbage) 0 [] twoConnections).map (fun k => k.handle) =
      acceptedHandles (startEventLoop 3 someGarbage 1
        (keptEnvs (entryState someGarbage) 0 twoConnections)).trace ∧
    ((track (entryState someGarbage) 0 [] twoConnections).map
        (fun k => k.closed.length)).sum =
      (closes (startEventLoop 3 someGarbage 1
        (keptEnvs (entryState someGarbage) 0 twoConnections)).trace).length ∧
    closes (startEventLoop 3 someGarbage 1
      (keptEnvs (entryState someGarbage) 0 twoConnections)).trace = [7, 8] :=
  match each_connection_acked_and_closed_once 3 someGarbage 0 twoConnections rfl with
  | ⟨_, _, hh, _, hcl, _⟩ => ⟨rfl, rfl, hh, hcl, rfl⟩


end IoUringComplete
